import Mathlib

/-!
Verification development for the NBFC rating-agency alert collector
(`app.py`, class `RatingAgencyAlertSystem`).

The program scrapes seven financial websites (ICRA, CareEdge, Acuite,
CRISIL, BSE, NSE, SEBI), distills each candidate record into an alert
dictionary with keys `agency, company, date, action, timestamp`, and then
aggregates and reports them.

Shallow embedding conventions used throughout this file:

* Python strings are Lean `String`s; `str.strip()` / `.replace(',','')` /
  `.lower()` are modelled character-wise on `String.data` (ASCII semantics,
  which covers every literal the program manipulates).
* `datetime.now()` is modelled by an explicit `Date` (day/month/year)
  parameter `today`, and the ISO timestamp by an explicit `now : String`
  parameter; `strftime` renderings are modelled by executable formatting
  functions below.
* The headless-browser session is modelled by per-adapter environment
  structures: each field of an environment records what the live page
  would have supplied at the corresponding interaction point of the
  adapter (page snapshots per pagination step, pager-button state at each
  lookup, scroll-height measurements, ...).  A `Bool` `driver` flag models
  `self.driver` being `None` after a failed Selenium setup, and
  `Except String Unit` fields model interactions that can raise.
* A BeautifulSoup fragment (one candidate row/card) is modelled by its
  root tag plus the document-order list of its descendant nodes; each
  descendant element node carries the attributes the program queries:
  tag name, `class` attribute, `get_text(strip=True)` value, and the
  BeautifulSoup `.string` value (which is `None` unless the element has a
  unique text descendant chain).  The HTML parser is an external
  collaborator, so this query-interface model is the embedding boundary.
-/

/-! ### Python string primitives -/

/-- Default whitespace characters of Python `str.strip()` (ASCII range). -/
def isPySpace (c : Char) : Bool :=
  c == ' ' || c == '\t' || c == '\n' || c == '\r' ||
  c == (Char.ofNat 11) || c == (Char.ofNat 12)

/-- `str.strip()` on the character list: drop leading and trailing whitespace. -/
def stripL (l : List Char) : List Char :=
  ((l.dropWhile isPySpace).reverse.dropWhile isPySpace).reverse

/-- `str.strip()` on strings. -/
def pyStrip (s : String) : String := ⟨stripL s.data⟩

/-- `str.replace(',', '')`: delete every comma character. -/
def removeCommasL (l : List Char) : List Char := l.filter (fun c => c ≠ ',')

/-- `date_text.strip().replace(',', '')` as performed by `is_today_date`. -/
def cleanedL (l : List Char) : List Char := removeCommasL (stripL l)

/-- Decidable prefix test on character lists. -/
def isPrefL : List Char → List Char → Bool
  | [], _ => true
  | _ :: _, [] => false
  | a :: as, b :: bs => a == b && isPrefL as bs

/-- Decidable substring (contiguous sublist) test: Python's `in` on strings. -/
def isSubL (needle : List Char) : List Char → Bool
  | [] => needle.isEmpty
  | b :: bs => isPrefL needle (b :: bs) || isSubL needle bs

/-- Python `needle in hay` for strings. -/
def containsSub (needle hay : String) : Bool := isSubL needle.data hay.data

/-- Python `str.lower()` (ASCII semantics suffice for the program's literals). -/
def strLower (s : String) : String := ⟨s.data.map Char.toLower⟩

theorem isPrefL_iff (v : List Char) : ∀ l, isPrefL v l = true ↔ v <+: l := by
  induction v with
  | nil => intro l; simp [isPrefL, List.nil_prefix]
  | cons a as ih =>
    intro l
    cases l with
    | nil =>
      simp only [isPrefL]
      constructor
      · intro h; cases h
      · rintro ⟨t, ht⟩; cases ht
    | cons b bs =>
      simp only [isPrefL, Bool.and_eq_true, beq_iff_eq, ih]
      constructor
      · rintro ⟨rfl, t, rfl⟩; exact ⟨t, rfl⟩
      · rintro ⟨t, ht⟩
        injection ht with h1 h2
        exact ⟨h1, t, h2⟩

theorem isSubL_iff (v : List Char) : ∀ l, isSubL v l = true ↔ v <:+: l := by
  intro l
  induction l with
  | nil =>
    simp only [isSubL, List.isEmpty_iff]
    constructor
    · rintro rfl; exact ⟨[], [], rfl⟩
    · rintro ⟨s, t, h⟩
      have hs := List.append_eq_nil.mp h
      exact (List.append_eq_nil.mp hs.1).2
  | cons b bs ih =>
    simp only [isSubL, Bool.or_eq_true, isPrefL_iff, ih]
    constructor
    · rintro (⟨t, ht⟩ | ⟨s, t, ht⟩)
      · exact ⟨[], t, ht⟩
      · exact ⟨b :: s, t, by simp [ht]⟩
    · rintro ⟨s, t, ht⟩
      cases s with
      | nil => exact Or.inl ⟨t, ht⟩
      | cons x xs =>
        injection ht with h1 h2
        exact Or.inr ⟨xs, t, h2⟩

theorem sub_of_append (v a b : List Char) : isSubL v (a ++ v ++ b) = true :=
  (isSubL_iff v _).mpr ⟨a, b, by simp⟩

/-- Dropping a whitespace prefix preserves any occurrence of a pattern whose
first character is not whitespace. -/
theorem infix_dropWhile_of_head (v l : List Char) (hne : v ≠ [])
    (hhd : ∀ c, v.head? = some c → isPySpace c = false)
    (h : v <:+: l) : v <:+: l.dropWhile isPySpace := by
  induction l with
  | nil =>
    obtain ⟨s, t, ht⟩ := h
    have hs := List.append_eq_nil.mp ht
    exact absurd (List.append_eq_nil.mp hs.1).2 hne
  | cons b bs ih =>
    by_cases hb : isPySpace b = true
    · rw [List.dropWhile_cons_of_pos hb]
      apply ih
      obtain ⟨s, t, ht⟩ := h
      cases s with
      | nil =>
        obtain ⟨c, cs, rfl⟩ := List.exists_cons_of_ne_nil hne
        injection ht with h1 h2
        have hc := hhd c rfl
        rw [h1] at hc
        rw [hc] at hb
        cases hb
      | cons x xs =>
        injection ht with h1 h2
        exact ⟨xs, t, h2⟩
    · rwa [List.dropWhile_cons_of_neg hb]

theorem infix_reverse (v l : List Char) (h : v <:+: l) : v.reverse <:+: l.reverse := by
  obtain ⟨s, t, rfl⟩ := h
  exact ⟨t.reverse, s.reverse, by simp⟩

/-- Stripping surrounding whitespace preserves any occurrence of a pattern
whose first and last characters are not whitespace. -/
theorem infix_stripL (v l : List Char) (hne : v ≠ [])
    (hhd : ∀ c, v.head? = some c → isPySpace c = false)
    (hlast : ∀ c, v.getLast? = some c → isPySpace c = false)
    (h : v <:+: l) : v <:+: stripL l := by
  unfold stripL
  have h1 : v <:+: l.dropWhile isPySpace := infix_dropWhile_of_head v l hne hhd h
  have h2 : v.reverse <:+: (l.dropWhile isPySpace).reverse := infix_reverse _ _ h1
  have hne' : v.reverse ≠ [] := by simpa using hne
  have hhd' : ∀ c, v.reverse.head? = some c → isPySpace c = false := by
    intro c hc
    rw [List.head?_reverse] at hc
    exact hlast c hc
  have h3 := infix_dropWhile_of_head v.reverse _ hne' hhd' h2
  have h4 := infix_reverse _ _ h3
  simpa using h4

/-- Deleting commas preserves any occurrence of a comma-free pattern. -/
theorem infix_removeCommas (v l : List Char) (hv : (',' : Char) ∉ v)
    (h : v <:+: l) : v <:+: removeCommasL l := by
  obtain ⟨s, t, rfl⟩ := h
  have hfv : List.filter (fun c => decide (c ≠ ',')) v = v :=
    List.filter_eq_self.mpr (fun c hc => by
      simp only [decide_eq_true_eq, ne_eq]
      rintro rfl; exact hv hc)
  unfold removeCommasL
  rw [List.filter_append, List.filter_append, hfv]
  exact ⟨_, _, rfl⟩

/-! ### Decimal rendering and `strftime` date formats -/

/-- One decimal digit character. -/
def digitChar (n : Nat) : Char := Char.ofNat (48 + n)

/-- Fuel-driven decimal rendering (structural, hence kernel-computable);
`natDigits` below always supplies sufficient fuel. -/
def natDigitsCore : Nat → Nat → List Char
  | 0, _ => []
  | f + 1, n =>
    if n < 10 then [digitChar n]
    else natDigitsCore f (n / 10) ++ [digitChar (n % 10)]

/-- Decimal rendering of a natural number, as produced by `strftime`. -/
def natDigits (n : Nat) : List Char := natDigitsCore (n + 1) n

/-- Zero-padding to two characters: `strftime` `%d` and `%m`. -/
def pad2 (n : Nat) : List Char :=
  if n < 10 then '0' :: natDigits n else natDigits n

def isDigitCh (c : Char) : Bool := 48 ≤ c.toNat && c.toNat ≤ 57

theorem digitChar_isDigit (n : Nat) (h : n < 10) : isDigitCh (digitChar n) = true := by
  interval_cases n <;> decide

theorem natDigitsCore_digits (fuel : Nat) :
    ∀ n c, c ∈ natDigitsCore fuel n → isDigitCh c = true := by
  induction fuel with
  | zero => intro n c hc; simp [natDigitsCore] at hc
  | succ f ih =>
    intro n c hc
    rw [natDigitsCore] at hc
    by_cases h : n < 10
    · rw [if_pos h] at hc
      simp at hc
      rw [hc]
      exact digitChar_isDigit n h
    · rw [if_neg h] at hc
      rcases List.mem_append.mp hc with h1 | h2
      · simpa using ih (n / 10) c (by simpa using h1)
      · simp at h2
        rw [h2]
        exact digitChar_isDigit _ (Nat.mod_lt _ (by omega))

theorem natDigits_digits (n : Nat) : ∀ c ∈ natDigits n, isDigitCh c = true :=
  fun c hc => natDigitsCore_digits (n + 1) n c hc

theorem natDigits_ne_nil (n : Nat) : natDigits n ≠ [] := by
  unfold natDigits natDigitsCore
  by_cases h : n < 10 <;> simp [h]

theorem pad2_digits (n : Nat) : ∀ c ∈ pad2 n, isDigitCh c = true := by
  intro c hc
  unfold pad2 at hc
  by_cases h : n < 10
  · rw [if_pos h] at hc
    rcases List.mem_cons.mp hc with h1 | h2
    · rw [h1]; decide
    · exact natDigits_digits n c h2
  · rw [if_neg h] at hc
    exact natDigits_digits n c hc

theorem pad2_ne_nil (n : Nat) : pad2 n ≠ [] := by
  unfold pad2
  by_cases h : n < 10 <;> simp [h, natDigits_ne_nil]

theorem isDigit_not_space (c : Char) (h : isDigitCh c = true) : isPySpace c = false := by
  simp only [isDigitCh, Bool.and_eq_true, decide_eq_true_eq] at h
  simp only [isPySpace, Bool.or_eq_false_iff, beq_eq_false_iff_ne, ne_eq]
  refine ⟨⟨⟨⟨⟨?_, ?_⟩, ?_⟩, ?_⟩, ?_⟩, ?_⟩ <;>
    (rintro rfl; revert h; decide)

theorem isDigit_not_comma (c : Char) (h : isDigitCh c = true) : c ≠ ',' := by
  rintro rfl; revert h; decide

/-- A date, standing for `datetime.now()`. -/
structure Date where
  day : Nat
  month : Nat
  year : Nat
deriving Repr, DecidableEq

/-- `strftime('%b')` month abbreviations. -/
def monthAbbrevs : List String :=
  ["Jan", "Feb", "Mar", "Apr", "May", "Jun",
   "Jul", "Aug", "Sep", "Oct", "Nov", "Dec"]

/-- `strftime('%B')` full month names. -/
def monthFulls : List String :=
  ["January", "February", "March", "April", "May", "June",
   "July", "August", "September", "October", "November", "December"]

def monthAbbrev (m : Nat) : String := monthAbbrevs.getD (m - 1) ""

def monthFull (m : Nat) : String := monthFulls.getD (m - 1) ""

theorem monthAbbrev_no_comma (m : Nat) : (',' : Char) ∉ (monthAbbrev m).data := by
  unfold monthAbbrev
  by_cases h : m - 1 < 12
  · have : m - 1 = 0 ∨ m - 1 = 1 ∨ m - 1 = 2 ∨ m - 1 = 3 ∨ m - 1 = 4 ∨ m - 1 = 5 ∨
        m - 1 = 6 ∨ m - 1 = 7 ∨ m - 1 = 8 ∨ m - 1 = 9 ∨ m - 1 = 10 ∨ m - 1 = 11 := by omega
    rcases this with h | h | h | h | h | h | h | h | h | h | h | h <;> rw [h] <;> decide
  · rw [List.getD_eq_default _ _ (by simp [monthAbbrevs]; omega)]
    simp

theorem monthFull_no_comma (m : Nat) : (',' : Char) ∉ (monthFull m).data := by
  unfold monthFull
  by_cases h : m - 1 < 12
  · have : m - 1 = 0 ∨ m - 1 = 1 ∨ m - 1 = 2 ∨ m - 1 = 3 ∨ m - 1 = 4 ∨ m - 1 = 5 ∨
        m - 1 = 6 ∨ m - 1 = 7 ∨ m - 1 = 8 ∨ m - 1 = 9 ∨ m - 1 = 10 ∨ m - 1 = 11 := by omega
    rcases this with h | h | h | h | h | h | h | h | h | h | h | h <;> rw [h] <;> decide
  · rw [List.getD_eq_default _ _ (by simp [monthFulls]; omega)]
    simp

/-- `strftime('%d-%m-%Y')`. -/
def fmt_dd_mm_yyyy (d : Date) : String :=
  ⟨pad2 d.day ++ ['-'] ++ pad2 d.month ++ ['-'] ++ natDigits d.year⟩

/-- `strftime('%Y-%m-%d')`. -/
def fmt_yyyy_mm_dd (d : Date) : String :=
  ⟨natDigits d.year ++ ['-'] ++ pad2 d.month ++ ['-'] ++ pad2 d.day⟩

/-- `strftime('%d/%m/%Y')`. -/
def fmt_dd_slash_mm_yyyy (d : Date) : String :=
  ⟨pad2 d.day ++ ['/'] ++ pad2 d.month ++ ['/'] ++ natDigits d.year⟩

/-- `strftime('%m/%d/%Y')`. -/
def fmt_mm_slash_dd_yyyy (d : Date) : String :=
  ⟨pad2 d.month ++ ['/'] ++ pad2 d.day ++ ['/'] ++ natDigits d.year⟩

/-- `strftime('%d-%b-%Y')`. -/
def fmt_dd_mon_yyyy (d : Date) : String :=
  ⟨pad2 d.day ++ ['-'] ++ (monthAbbrev d.month).data ++ ['-'] ++ natDigits d.year⟩

/-- `strftime('%d %b %Y')`. -/
def fmt_dd_sp_mon_yyyy (d : Date) : String :=
  ⟨pad2 d.day ++ [' '] ++ (monthAbbrev d.month).data ++ [' '] ++ natDigits d.year⟩

/-- `strftime('%d %B %Y')`. -/
def fmt_dd_sp_month_yyyy (d : Date) : String :=
  ⟨pad2 d.day ++ [' '] ++ (monthFull d.month).data ++ [' '] ++ natDigits d.year⟩

/-- The `today_formats` list built inside `is_today_date`, in source order. -/
def today_formats (d : Date) : List String :=
  [fmt_dd_mm_yyyy d, fmt_yyyy_mm_dd d, fmt_dd_slash_mm_yyyy d,
   fmt_mm_slash_dd_yyyy d, fmt_dd_mon_yyyy d, fmt_dd_sp_mon_yyyy d,
   fmt_dd_sp_month_yyyy d]

/-- `is_today_date(date_text)`: false on empty input, else clean the text
(`strip` then delete commas) and test substring containment of any of the
seven renderings of today. -/
def is_today_date (today : Date) (date_text : String) : Bool :=
  if date_text = "" then false
  else (today_formats today).any (fun fmt => isSubL fmt.data (cleanedL date_text.data))

/-! ### Well-formedness of the date renderings -/

theorem head?_append_left {α : Type} (l r : List α) (h : l ≠ []) :
    (l ++ r).head? = l.head? := by
  obtain ⟨c, cs, rfl⟩ := List.exists_cons_of_ne_nil h
  rfl

theorem getLast?_append_right {α : Type} (l r : List α) (h : r ≠ []) :
    (l ++ r).getLast? = r.getLast? := by
  rw [← List.head?_reverse, ← List.head?_reverse r, List.reverse_append]
  have hr : r.reverse ≠ [] := by simpa using h
  obtain ⟨c, cs, hc⟩ := List.exists_cons_of_ne_nil hr
  rw [hc]
  rfl

theorem mem_of_head? {α : Type} {l : List α} {c : α} (h : l.head? = some c) : c ∈ l := by
  cases l with
  | nil => cases h
  | cons x xs =>
    injection h with h1
    rw [← h1]
    exact List.mem_cons_self x xs

theorem mem_of_getLast? {α : Type} {l : List α} {c : α} (h : l.getLast? = some c) : c ∈ l := by
  rw [← List.head?_reverse] at h
  have := mem_of_head? h
  simpa using this

/-- The shape facts about a date rendering that make substring matching robust
under `is_today_date`'s cleaning: nonempty, non-whitespace first and last
character, and comma-free. -/
structure GoodFmt (v : List Char) : Prop where
  ne : v ≠ []
  head_ok : ∀ c, v.head? = some c → isPySpace c = false
  last_ok : ∀ c, v.getLast? = some c → isPySpace c = false
  no_comma : (',' : Char) ∉ v

theorem goodFmt_of_parts (v a m b : List Char)
    (hv : v = a ++ m ++ b) (ha : a ≠ []) (hb : b ≠ [])
    (hda : ∀ c ∈ a, isDigitCh c = true) (hdb : ∀ c ∈ b, isDigitCh c = true)
    (hm : (',' : Char) ∉ m) : GoodFmt v := by
  subst hv
  refine ⟨?_, ?_, ?_, ?_⟩
  · simp [ha]
  · intro c hc
    rw [head?_append_left _ _ (by simp [ha]), head?_append_left _ _ ha] at hc
    exact isDigit_not_space c (hda c (mem_of_head? hc))
  · intro c hc
    rw [getLast?_append_right _ _ hb] at hc
    exact isDigit_not_space c (hdb c (mem_of_getLast? hc))
  · intro hc
    rcases List.mem_append.mp hc with h1 | h2
    · rcases List.mem_append.mp h1 with h3 | h4
      · exact isDigit_not_comma _ (hda _ h3) rfl
      · exact hm h4
    · exact isDigit_not_comma _ (hdb _ h2) rfl

theorem pad2_no_comma (n : Nat) : (',' : Char) ∉ pad2 n :=
  fun h => isDigit_not_comma _ (pad2_digits n _ h) rfl

theorem goodFmt_dd_mm_yyyy (d : Date) : GoodFmt (fmt_dd_mm_yyyy d).data := by
  refine goodFmt_of_parts _ (pad2 d.day) (['-'] ++ pad2 d.month ++ ['-']) (natDigits d.year)
    ?_ (pad2_ne_nil _) (natDigits_ne_nil _) (pad2_digits _) (natDigits_digits _) ?_
  · show pad2 d.day ++ ['-'] ++ pad2 d.month ++ ['-'] ++ natDigits d.year = _
    simp [List.append_assoc]
  · intro hc
    rcases List.mem_append.mp hc with h1 | h2
    · rcases List.mem_append.mp h1 with h3 | h4
      · simp at h3
      · exact pad2_no_comma _ h4
    · simp at h2

theorem goodFmt_yyyy_mm_dd (d : Date) : GoodFmt (fmt_yyyy_mm_dd d).data := by
  refine goodFmt_of_parts _ (natDigits d.year) (['-'] ++ pad2 d.month ++ ['-']) (pad2 d.day)
    ?_ (natDigits_ne_nil _) (pad2_ne_nil _) (natDigits_digits _) (pad2_digits _) ?_
  · show natDigits d.year ++ ['-'] ++ pad2 d.month ++ ['-'] ++ pad2 d.day = _
    simp [List.append_assoc]
  · intro hc
    rcases List.mem_append.mp hc with h1 | h2
    · rcases List.mem_append.mp h1 with h3 | h4
      · simp at h3
      · exact pad2_no_comma _ h4
    · simp at h2

theorem goodFmt_dd_slash_mm_yyyy (d : Date) : GoodFmt (fmt_dd_slash_mm_yyyy d).data := by
  refine goodFmt_of_parts _ (pad2 d.day) (['/'] ++ pad2 d.month ++ ['/']) (natDigits d.year)
    ?_ (pad2_ne_nil _) (natDigits_ne_nil _) (pad2_digits _) (natDigits_digits _) ?_
  · show pad2 d.day ++ ['/'] ++ pad2 d.month ++ ['/'] ++ natDigits d.year = _
    simp [List.append_assoc]
  · intro hc
    rcases List.mem_append.mp hc with h1 | h2
    · rcases List.mem_append.mp h1 with h3 | h4
      · simp at h3
      · exact pad2_no_comma _ h4
    · simp at h2

theorem goodFmt_mm_slash_dd_yyyy (d : Date) : GoodFmt (fmt_mm_slash_dd_yyyy d).data := by
  refine goodFmt_of_parts _ (pad2 d.month) (['/'] ++ pad2 d.day ++ ['/']) (natDigits d.year)
    ?_ (pad2_ne_nil _) (natDigits_ne_nil _) (pad2_digits _) (natDigits_digits _) ?_
  · show pad2 d.month ++ ['/'] ++ pad2 d.day ++ ['/'] ++ natDigits d.year = _
    simp [List.append_assoc]
  · intro hc
    rcases List.mem_append.mp hc with h1 | h2
    · rcases List.mem_append.mp h1 with h3 | h4
      · simp at h3
      · exact pad2_no_comma _ h4
    · simp at h2

theorem goodFmt_dd_mon_yyyy (d : Date) : GoodFmt (fmt_dd_mon_yyyy d).data := by
  refine goodFmt_of_parts _ (pad2 d.day) (['-'] ++ (monthAbbrev d.month).data ++ ['-'])
    (natDigits d.year)
    ?_ (pad2_ne_nil _) (natDigits_ne_nil _) (pad2_digits _) (natDigits_digits _) ?_
  · show pad2 d.day ++ ['-'] ++ (monthAbbrev d.month).data ++ ['-'] ++ natDigits d.year = _
    simp [List.append_assoc]
  · intro hc
    rcases List.mem_append.mp hc with h1 | h2
    · rcases List.mem_append.mp h1 with h3 | h4
      · simp at h3
      · exact monthAbbrev_no_comma _ h4
    · simp at h2

theorem goodFmt_dd_sp_mon_yyyy (d : Date) : GoodFmt (fmt_dd_sp_mon_yyyy d).data := by
  refine goodFmt_of_parts _ (pad2 d.day) ([' '] ++ (monthAbbrev d.month).data ++ [' '])
    (natDigits d.year)
    ?_ (pad2_ne_nil _) (natDigits_ne_nil _) (pad2_digits _) (natDigits_digits _) ?_
  · show pad2 d.day ++ [' '] ++ (monthAbbrev d.month).data ++ [' '] ++ natDigits d.year = _
    simp [List.append_assoc]
  · intro hc
    rcases List.mem_append.mp hc with h1 | h2
    · rcases List.mem_append.mp h1 with h3 | h4
      · simp at h3
      · exact monthAbbrev_no_comma _ h4
    · simp at h2

theorem goodFmt_dd_sp_month_yyyy (d : Date) : GoodFmt (fmt_dd_sp_month_yyyy d).data := by
  refine goodFmt_of_parts _ (pad2 d.day) ([' '] ++ (monthFull d.month).data ++ [' '])
    (natDigits d.year)
    ?_ (pad2_ne_nil _) (natDigits_ne_nil _) (pad2_digits _) (natDigits_digits _) ?_
  · show pad2 d.day ++ [' '] ++ (monthFull d.month).data ++ [' '] ++ natDigits d.year = _
    simp [List.append_assoc]
  · intro hc
    rcases List.mem_append.mp hc with h1 | h2
    · rcases List.mem_append.mp h1 with h3 | h4
      · simp at h3
      · exact monthFull_no_comma _ h4
    · simp at h2

theorem today_formats_good (d : Date) :
    ∀ fmt ∈ today_formats d, GoodFmt fmt.data := by
  intro fmt hf
  simp only [today_formats, List.mem_cons, List.not_mem_nil, or_false] at hf
  rcases hf with rfl | rfl | rfl | rfl | rfl | rfl | rfl
  · exact goodFmt_dd_mm_yyyy d
  · exact goodFmt_yyyy_mm_dd d
  · exact goodFmt_dd_slash_mm_yyyy d
  · exact goodFmt_mm_slash_dd_yyyy d
  · exact goodFmt_dd_mon_yyyy d
  · exact goodFmt_dd_sp_mon_yyyy d
  · exact goodFmt_dd_sp_month_yyyy d

/-- The cleaning performed by `is_today_date` preserves occurrences of any
well-formed date rendering. -/
theorem infix_cleanedL (v l : List Char) (hg : GoodFmt v) (h : v <:+: l) :
    v <:+: cleanedL l :=
  infix_removeCommas _ _ hg.no_comma (infix_stripL _ _ hg.ne hg.head_ok hg.last_ok h)

theorem str_ne_empty_of_data {s : String} (h : s.data ≠ []) : s ≠ "" := by
  intro he
  rw [he] at h
  exact h rfl

theorem stripL_of_all_space (l : List Char) (h : ∀ c ∈ l, isPySpace c = true) :
    stripL l = [] := by
  unfold stripL
  rw [List.dropWhile_eq_nil_iff.mpr h]
  simp

theorem isSubL_nil_eq (v : List Char) : isSubL v [] = v.isEmpty := rfl

/-- C2: `is_today_date` fails closed on empty and whitespace-only input; on any
other input it returns true exactly when the cleaned text (stripped of
surrounding whitespace, commas deleted) contains one of the seven renderings
of today as a substring; and every rendering embedded in an arbitrary
surrounding string is recognised. -/
theorem C2_is_today_date_characterization (today : Date) :
    is_today_date today "" = false
    ∧ (∀ s : String, (∀ c ∈ s.data, isPySpace c = true) → is_today_date today s = false)
    ∧ (∀ s : String, s ≠ "" →
        (is_today_date today s = true ↔
          ∃ fmt ∈ today_formats today, fmt.data <:+: cleanedL s.data))
    ∧ (∀ (a b fmt : String), fmt ∈ today_formats today →
        is_today_date today (a ++ fmt ++ b) = true) := by
  refine ⟨by simp [is_today_date], ?_, ?_, ?_⟩
  · intro s hs
    by_cases he : s = ""
    · rw [he]; simp [is_today_date]
    · rw [is_today_date, if_neg he]
      have hclean : cleanedL s.data = [] := by
        unfold cleanedL
        rw [stripL_of_all_space s.data hs]
        rfl
      rw [hclean]
      apply Bool.not_eq_true _ |>.mp
      intro hany
      obtain ⟨fmt, hfm, hsub⟩ := List.any_eq_true.mp hany
      rw [isSubL_nil_eq, List.isEmpty_iff] at hsub
      exact (today_formats_good today fmt hfm).ne hsub
  · intro s hs
    rw [is_today_date, if_neg hs]
    simp only [List.any_eq_true, isSubL_iff]
  · intro a b fmt hfm
    have hg := today_formats_good today fmt hfm
    have hdata : (a ++ fmt ++ b).data = a.data ++ fmt.data ++ b.data := by
      rw [String.data_append, String.data_append]
    have hne : (a ++ fmt ++ b) ≠ "" := by
      apply str_ne_empty_of_data
      rw [hdata]
      intro hnil
      have := List.append_eq_nil.mp hnil
      exact hg.ne (List.append_eq_nil.mp this.1).2
    rw [is_today_date, if_neg hne]
    apply List.any_eq_true.mpr
    refine ⟨fmt, hfm, (isSubL_iff _ _).mpr ?_⟩
    apply infix_cleanedL _ _ hg
    rw [hdata]
    exact ⟨a.data, b.data, rfl⟩

/-- Concrete date used by all witnesses below. -/
def dateOct12 : Date := ⟨12, 10, 2025⟩

/-- Witness for C2: today's `DD/MM/YYYY` rendering embedded inside a longer
announcement timestamp is recognised. -/
theorem C2_is_today_date_witness :
    is_today_date dateOct12
      ("Announced on " ++ fmt_dd_slash_mm_yyyy dateOct12 ++ " 09:15:00") = true :=
  (C2_is_today_date_characterization dateOct12).2.2.2
    "Announced on " " 09:15:00" (fmt_dd_slash_mm_yyyy dateOct12) (by decide)

/-! ### Candidate-record fragments and the field extractor -/

/-- An element descendant as queried by the extractor: tag name, `class`
attribute (`none` when absent), `get_text(strip=True)` value, and the
BeautifulSoup `.string` value (`none` unless the element has a unique
text-descendant chain). -/
structure DElem where
  tag : String
  cls : Option String
  textStrip : String
  str : Option String
deriving Repr, DecidableEq

/-- One node in the document-order descendant list of a fragment: an element
or a text node (`NavigableString`). -/
inductive DNode where
  | el : DElem → DNode
  | tx : String → DNode
deriving Repr, DecidableEq

/-- A candidate record (row/card): its own tag (`row.name`) and the
document-order list of its descendant nodes. -/
structure Frag where
  tag : String
  nodes : List DNode
deriving Repr, DecidableEq

/-- Strategy 1 match: `element.find(class_=lambda x: x and selector in x.lower())`,
returning `found.get_text(strip=True)`.  BeautifulSoup hands the raw `class`
attribute value to the lambda; absent attribute and empty string are falsy. -/
def matchClass (selector : String) : DNode → Option String
  | .el e =>
    match e.cls with
    | some c =>
      if c ≠ "" ∧ containsSub selector (strLower c) = true then some e.textStrip else none
    | none => none
  | .tx _ => none

/-- Strategy 2 match: `element.find(string=lambda text: text and selector in text.lower())`,
returning `found.strip()` on the matched text node. -/
def matchString (selector : String) : DNode → Option String
  | .tx s =>
    if s ≠ "" ∧ containsSub selector (strLower s) = true then some (pyStrip s) else none
  | .el _ => none

/-- Strategy 3 match: `element.find(tag, string=lambda text: ...)`: an element
of the given tag whose `.string` satisfies the predicate, returning its
`get_text(strip=True)`. -/
def matchTagString (tag selector : String) : DNode → Option String
  | .el e =>
    if e.tag = tag then
      match e.str with
      | some s =>
        if s ≠ "" ∧ containsSub selector (strLower s) = true then some e.textStrip else none
      | none => none
    else none
  | .tx _ => none

/-- The per-selector body of `extract_text_from_element`: class match, then
text-node match, then tag+text match over span/div/td/p/a in order. -/
def tryStrategies (frag : Frag) (selector : String) : Option String :=
  match frag.nodes.findSome? (matchClass selector) with
  | some r => some r
  | none =>
    match frag.nodes.findSome? (matchString selector) with
    | some r => some r
    | none =>
      ["span", "div", "td", "p", "a"].findSome?
        (fun tag => frag.nodes.findSome? (matchTagString tag selector))

/-- `extract_text_from_element(element, selectors)`: try each selector in
order; on the first strategy hit return its text; otherwise return `""`. -/
def extract_text_from_element (frag : Frag) (selectors : List String) : String :=
  (selectors.findSome? (tryStrategies frag)).getD ""

/-- Strategy 1 as the specification describes it: the class attribute contains
the hint substring *matched case-insensitively* (both sides lowered). -/
def matchClassSpec (selector : String) : DNode → Option String
  | .el e =>
    match e.cls with
    | some c =>
      if c ≠ "" ∧ containsSub (strLower selector) (strLower c) = true then some e.textStrip
      else none
    | none => none
  | .tx _ => none

/-- The extractor as the specification describes it (strategies 2 and 3 as in
the code; strategy 1 case-insensitive in both the hint and the class). -/
def tryStrategiesSpec (frag : Frag) (selector : String) : Option String :=
  match frag.nodes.findSome? (matchClassSpec selector) with
  | some r => some r
  | none =>
    match frag.nodes.findSome? (matchString selector) with
    | some r => some r
    | none =>
      ["span", "div", "td", "p", "a"].findSome?
        (fun tag => frag.nodes.findSome? (matchTagString tag selector))

/-- `extract_text_from_element` as the specification describes it. -/
def extractTextSpec (frag : Frag) (selectors : List String) : String :=
  (selectors.findSome? (tryStrategiesSpec frag)).getD ""

/-- Counterexample fragment for C5: the class attribute is `Company` and the
hint is `Company`; the code lowercases only the class, so the verbatim hint
never matches. -/
def fragCaseHint : Frag :=
  ⟨"div", [.el ⟨"span", some "Company", "ACME Finance Ltd", some "ACME Finance Ltd"⟩]⟩

/-- Counterexample for C5: with the capitalised hint `Company`, the code
returns `""` while the case-insensitive matching described by the claim
returns the element text, so the two algorithms differ. -/
theorem C5_extractor_counterexample :
    extract_text_from_element fragCaseHint ["Company"] = ""
    ∧ extractTextSpec fragCaseHint ["Company"] = "ACME Finance Ltd"
    ∧ extract_text_from_element fragCaseHint ["Company"]
        ≠ extractTextSpec fragCaseHint ["Company"] := by
  refine ⟨by decide, by decide, by decide⟩

/-- C5 (amended): the extractor tries hints in order with the three matcher
strategies in fixed order, but the hint substring is compared verbatim against
the lowercased class/text, so matching agrees with the case-insensitive
description exactly when every hint is already lowercase. -/
theorem C5_extractor_strategy_order (frag : Frag) (selectors : List String)
    (h : ∀ s ∈ selectors, strLower s = s) :
    extract_text_from_element frag selectors = extractTextSpec frag selectors := by
  induction selectors with
  | nil => rfl
  | cons s ss ih =>
    have hs : strLower s = s := h s (List.mem_cons_self s ss)
    have hmc : matchClass s = matchClassSpec s := by
      funext n
      cases n with
      | el e =>
        cases hc : e.cls with
        | some c => simp only [matchClass, matchClassSpec, hc, hs]
        | none => simp only [matchClass, matchClassSpec, hc]
      | tx t => rfl
    have htry : tryStrategies frag s = tryStrategiesSpec frag s := by
      unfold tryStrategies tryStrategiesSpec
      rw [hmc]
    unfold extract_text_from_element extractTextSpec at *
    rw [List.findSome?_cons, List.findSome?_cons, htry]
    cases tryStrategiesSpec frag s with
    | none => exact ih (fun x hx => h x (List.mem_cons_of_mem s hx))
    | some r => rfl

/-- Witness for the amended C5 at an all-lowercase hint list. -/
theorem C5_extractor_witness :
    extract_text_from_element fragCaseHint ["company"]
      = extractTextSpec fragCaseHint ["company"] :=
  C5_extractor_strategy_order fragCaseHint ["company"] (by decide)

/-- C6: the extractor is total (the embedding of "never raises"), and in the
worst case — no hint matched by any strategy — it returns the empty string;
any other return value is the result of some hint's strategy match. -/
theorem C6_extractor_never_raises (frag : Frag) (selectors : List String) :
    extract_text_from_element frag selectors = ""
    ∨ ∃ s ∈ selectors,
        tryStrategies frag s = some (extract_text_from_element frag selectors) := by
  cases h : selectors.findSome? (tryStrategies frag) with
  | none =>
    left
    unfold extract_text_from_element
    rw [h]
    rfl
  | some r =>
    right
    have hex := List.exists_of_findSome?_eq_some h
    obtain ⟨s, hs, hf⟩ := hex
    refine ⟨s, hs, ?_⟩
    unfold extract_text_from_element
    rw [h, hf]
    rfl

/-! ### Alerts and source adapters -/

/-- The alert dictionary `{'agency', 'company', 'date', 'action', 'timestamp'}`. -/
structure Alert where
  agency : String
  company : String
  date : String
  action : String
  timestamp : String
deriving Repr, DecidableEq

/-- `row.find_all('td')` followed by `get_text(strip=True)` on each cell. -/
def tdTexts (row : Frag) : List String :=
  row.nodes.filterMap (fun n =>
    match n with
    | .el e => if e.tag = "td" then some e.textStrip else none
    | .tx _ => none)

/-- State of a "Next" pager control at one lookup: `find_element` raised
`NoSuchElementException`, or the control was found disabled, or enabled. -/
inductive NextBtn where
  | absent
  | disabled
  | enabled
deriving Repr, DecidableEq

/-- The `while True` pagination loop shared by the ICRA, Acuite and SEBI
adapters: extract the current page, then look the "Next" control up; absent or
disabled breaks, enabled clicks through to the next supplied page.  The
environment supplies one `(rows, buttonState)` entry per loop iteration;
exhausting the entries models the page on which the lookup finds no control. -/
def paged_loop (page : List Frag → List Alert) : List (List Frag × NextBtn) → List Alert
  | [] => []
  | (rows, btn) :: rest =>
    page rows ++ (if btn = NextBtn.enabled then paged_loop page rest else [])

/-- One ICRA candidate row (`scrape_icra_ratings` inner loop body). -/
def icra_row (today : Date) (now : String) (row : Frag) : Option Alert :=
  let company_name := extract_text_from_element row ["company", "entity", "name"]
  let rating_date := extract_text_from_element row ["date", "rated-on"]
  let rating_action := extract_text_from_element row ["action", "rating", "grade"]
  if company_name ≠ "" ∧ is_today_date today rating_date = true then
    some ⟨"ICRA", company_name, rating_date, rating_action, now⟩
  else none

/-- One ICRA page: the `for row in rating_rows` loop. -/
def icra_page (today : Date) (now : String) (rows : List Frag) : List Alert :=
  rows.filterMap (icra_row today now)

/-- Environment of `scrape_icra_ratings`: whether `driver.get` raised, and the
`gridrow`/`rating-item` fragments plus pager state per pagination step. -/
structure IcraEnv where
  nav : Except String Unit
  pages : List (List Frag × NextBtn)
deriving Repr

/-- `scrape_icra_ratings`.  The date-filter interaction only changes which
pages the browser serves, which `env.pages` already records. -/
def scrape_icra_ratings (driver : Bool) (today : Date) (now : String)
    (env : IcraEnv) : List Alert :=
  if driver = false then []
  else
    match env.nav with
    | .error _ => []
    | .ok _ => paged_loop (icra_page today now) env.pages

/-- One CareEdge rating card (`scrape_careedge_ratings` inner loop body). -/
def careedge_item (today : Date) (now : String) (item : Frag) : Option Alert :=
  let company_name := extract_text_from_element item ["company", "entity", "name"]
  let rating_date := extract_text_from_element item ["date", "rated-on", "timestamp"]
  let rating_action := extract_text_from_element item ["action", "rating", "grade"]
  if company_name ≠ "" ∧ is_today_date today rating_date = true then
    some ⟨"CareEdge", company_name, rating_date, rating_action, now⟩
  else none

/-- The infinite-scroll loop of `scrape_careedge_ratings`: given the height
recorded before each iteration and the successive measurements, return the
number of scroll iterations performed, or `none` when the supplied
measurements never reach a fixed point (the Python loop then keeps polling;
more measurements would be consumed). -/
def scroll_iterations (last : Nat) : List Nat → Option Nat
  | [] => none
  | h :: rest => if h = last then some 1 else (scroll_iterations h rest).map (· + 1)

/-- Content visible after `i` scroll iterations: infinite scroll only appends,
so the page shows the concatenation of the chunks loaded so far
(`chunks.get 0` is the initially rendered content, `chunks.get k` the content
the `k`-th scroll triggers). -/
def visibleItems (chunks : List (List Frag)) (i : Nat) : List Frag :=
  (chunks.take i).flatten

/-- Environment of `scrape_careedge_ratings`. -/
structure CareEnv where
  nav : Except String Unit
  sectionFound : Bool
  lastHeight : Nat
  heights : List Nat
  chunks : List (List Frag)
deriving Repr

/-- `scrape_careedge_ratings`: wait for the `recent-ratings` section
(`TimeoutException` caught as "no alerts"), scroll until the height
stabilises, then extract once from the fully expanded snapshot.  When the
supplied measurements never stabilise the Python loop does not terminate; the
model then takes the fully loaded snapshot (no claim depends on that case). -/
def scrape_careedge_ratings (driver : Bool) (today : Date) (now : String)
    (env : CareEnv) : List Alert :=
  if driver = false then []
  else
    match env.nav with
    | .error _ => []
    | .ok _ =>
      if env.sectionFound = false then []
      else
        match scroll_iterations env.lastHeight env.heights with
        | some n => (visibleItems env.chunks (n + 1)).filterMap (careedge_item today now)
        | none => (visibleItems env.chunks env.chunks.length).filterMap (careedge_item today now)

/-- One Acuite candidate row: positional cell addressing with the
`len(cells) >= 3` guard. -/
def acuite_row (today : Date) (now : String) (row : Frag) : Option Alert :=
  let cells := tdTexts row
  if cells.length ≥ 3 then
    let rating_date := cells.getD 0 ""
    let company_name := cells.getD 1 ""
    let rating_action := cells.getD 2 ""
    if company_name ≠ "" ∧ is_today_date today rating_date = true then
      some ⟨"Acuite", company_name, rating_date, rating_action, now⟩
    else none
  else none

/-- One Acuite page: `for row in rating_rows[1:]` (header row skipped). -/
def acuite_page (today : Date) (now : String) (rows : List Frag) : List Alert :=
  (rows.drop 1).filterMap (acuite_row today now)

/-- Environment of `scrape_acuite_ratings`. -/
structure AcuiteEnv where
  nav : Except String Unit
  pages : List (List Frag × NextBtn)
deriving Repr

/-- `scrape_acuite_ratings`. -/
def scrape_acuite_ratings (driver : Bool) (today : Date) (now : String)
    (env : AcuiteEnv) : List Alert :=
  if driver = false then []
  else
    match env.nav with
    | .error _ => []
    | .ok _ => paged_loop (acuite_page today now) env.pages

/-- State of the CRISIL "Load More" control at one lookup. -/
inductive LoadBtn where
  | absent
  | notDisplayed
  | disabled
  | clickable
deriving Repr, DecidableEq

def isClickable : LoadBtn → Bool
  | .clickable => true
  | _ => false

/-- The CRISIL `while True` click loop: click while the control is found,
displayed and enabled; absent (`NoSuchElementException`), not displayed or
disabled breaks.  Returns the number of clicks performed.  The environment
supplies the control state at each lookup; exhausting the list models the
lookup that finds no control. -/
def crisil_click_loop : List LoadBtn → Nat
  | [] => 0
  | b :: rest => if isClickable b then crisil_click_loop rest + 1 else 0

/-- One CRISIL rating card. -/
def crisil_item (today : Date) (now : String) (item : Frag) : Option Alert :=
  let company_name := extract_text_from_element item ["company", "entity", "name", "title"]
  let rating_date := extract_text_from_element item ["date", "rated-on", "timestamp"]
  let rating_action := extract_text_from_element item ["action", "rating", "grade", "description"]
  if company_name ≠ "" ∧ is_today_date today rating_date = true then
    some ⟨"CRISIL", company_name, rating_date, rating_action, now⟩
  else none

/-- The single bulk extraction `scrape_crisil_ratings` performs after its
click loop ends. -/
def crisil_extract (today : Date) (now : String) (items : List Frag) : List Alert :=
  items.filterMap (crisil_item today now)

/-- Environment of `scrape_crisil_ratings`: the control state at each lookup
and the rating items of the final, fully expanded snapshot. -/
structure CrisilEnv where
  nav : Except String Unit
  buttons : List LoadBtn
  items : List Frag
deriving Repr

/-- `scrape_crisil_ratings`: drive the click loop (its only effect is on the
browser page, which `env.items` records fully expanded), then extract once. -/
def scrape_crisil_ratings (driver : Bool) (today : Date) (now : String)
    (env : CrisilEnv) : List Alert :=
  if driver = false then []
  else
    match env.nav with
    | .error _ => []
    | .ok _ =>
      let _clicks := crisil_click_loop env.buttons
      crisil_extract today now env.items

/-- One BSE candidate row: the alert is appended whenever `company_name` is
non-empty; `date` is set to the system-generated `current_date` string, and no
date test is performed. -/
def bse_row (segment current_date now : String) (row : Frag) : Option Alert :=
  let cells := tdTexts row
  if cells.length ≥ 3 then
    let company_name := cells.getD 1 ""
    let subject := cells.getD 2 ""
    if company_name ≠ "" then
      some ⟨"BSE (" ++ segment ++ ")", company_name, current_date, subject, now⟩
    else none
  else none

/-- One BSE segment: `soup.find_all('tr')[1:]` (header skipped) through
`bse_row`. -/
def bse_segment (segment current_date now : String) (rows : List Frag) : List Alert :=
  (rows.drop 1).filterMap (bse_row segment current_date now)

/-- Environment of `scrape_bse_announcements`: per segment either the rows
served, or a fault raised inside the segment (caught by the per-segment
`except`, so the other segment still runs). -/
structure BseEnv where
  nav : Except String Unit
  equity : Except String (List Frag)
  debt : Except String (List Frag)
deriving Repr

/-- `scrape_bse_announcements`: `current_date` is today rendered `%d/%m/%Y`;
the fixed segment list `['Equity', 'Debt']` is unrolled. -/
def scrape_bse_announcements (driver : Bool) (today : Date) (now : String)
    (env : BseEnv) : List Alert :=
  if driver = false then []
  else
    match env.nav with
    | .error _ => []
    | .ok _ =>
      let current_date := fmt_dd_slash_mm_yyyy today
      (match env.equity with
       | .error _ => []
       | .ok rows => bse_segment "Equity" current_date now rows)
        ++ (match env.debt with
            | .error _ => []
            | .ok rows => bse_segment "Debt" current_date now rows)

/-- The `(company_name, subject, date_text)` assignment a NSE row performs, or
`none` when the row is a `tr` with fewer than three cells, in which case the
Python loop body leaves the three variables untouched. -/
def nse_row_vals (row : Frag) : Option (String × String × String) :=
  if row.tag = "tr" then
    let cells := tdTexts row
    if cells.length ≥ 3 then
      some (cells.getD 1 "", cells.getD 2 "", cells.getD 0 "")
    else none
  else
    some (extract_text_from_element row ["company", "symbol"],
          extract_text_from_element row ["subject", "title"],
          extract_text_from_element row ["date", "time"])

/-- The NSE `for row in announcement_rows` loop.  The state carries the
current values of `company_name`/`subject`/`date_text` (`none` while they are
still unbound).  A row that assigns nothing leaves the state as is: with no
prior assignment the emission test raises `NameError`, which the per-row
`except` catches (row skipped); with a prior assignment the stale values are
re-tested and can be emitted again.  Returns the emitted alerts and the final
variable state (the variables persist beyond the loop). -/
def nse_rows (today : Date) (now segment : String) :
    List Frag → Option (String × String × String) →
      List Alert × Option (String × String × String)
  | [], st => ([], st)
  | row :: rest, st =>
    match (match nse_row_vals row with
           | some v => some v
           | none => st) with
    | none => nse_rows today now segment rest none
    | some (c, s, d) =>
      let tail := nse_rows today now segment rest (some (c, s, d))
      if c ≠ "" ∧ is_today_date today d = true then
        (⟨"NSE (" ++ segment ++ ")", c, d, s, now⟩ :: tail.1, tail.2)
      else tail

/-- Environment of `scrape_nse_announcements`: per segment, `none` when the
segment tab was not found (warning, segment skipped), else the rows served
after switching to the tab. -/
structure NseEnv where
  nav : Except String Unit
  equityTab : Option (List Frag)
  debtTab : Option (List Frag)
deriving Repr

/-- `scrape_nse_announcements`: the `['Equity', 'Debt']` loop unrolled; the
extraction variables persist across segments because they are function-local
in Python, so the Debt segment starts from the Equity segment's final state. -/
def scrape_nse_announcements (driver : Bool) (today : Date) (now : String)
    (env : NseEnv) : List Alert :=
  if driver = false then []
  else
    match env.nav with
    | .error _ => []
    | .ok _ =>
      let eq :=
        match env.equityTab with
        | none => (([] : List Alert), (none : Option (String × String × String)))
        | some rows => nse_rows today now "Equity" rows none
      let db :=
        match env.debtTab with
        | none => (([] : List Alert), eq.2)
        | some rows => nse_rows today now "Debt" rows eq.2
      eq.1 ++ db.1

/-- One SEBI candidate row: `len(cells) >= 2` guard, entity substituted by the
constant placeholder `'SEBI Announcement'`. -/
def sebi_row (today : Date) (now : String) (row : Frag) : Option Alert :=
  let cells := tdTexts row
  if cells.length ≥ 2 then
    let date_text := cells.getD 0 ""
    let announcement_text := cells.getD 1 ""
    if announcement_text ≠ "" ∧ is_today_date today date_text = true then
      some ⟨"SEBI", "SEBI Announcement", date_text, announcement_text, now⟩
    else none
  else none

/-- One SEBI page: `soup.find_all('tr')[1:]` (header skipped). -/
def sebi_page (today : Date) (now : String) (rows : List Frag) : List Alert :=
  (rows.drop 1).filterMap (sebi_row today now)

/-- Environment of `scrape_sebi_announcements`. -/
structure SebiEnv where
  nav : Except String Unit
  pages : List (List Frag × NextBtn)
deriving Repr

/-- `scrape_sebi_announcements`. -/
def scrape_sebi_announcements (driver : Bool) (today : Date) (now : String)
    (env : SebiEnv) : List Alert :=
  if driver = false then []
  else
    match env.nav with
    | .error _ => []
    | .ok _ => paged_loop (sebi_page today now) env.pages

/-- The one shared browser session and the per-adapter environments for a run. -/
structure AllEnv where
  driver : Bool
  icra : IcraEnv
  care : CareEnv
  acuite : AcuiteEnv
  crisil : CrisilEnv
  bse : BseEnv
  nse : NseEnv
  sebi : SebiEnv

/-- `run_all_scrapers`: run the seven adapters in their fixed order and
concatenate (each call sits in its own `try`, and each adapter is total, so
every adapter contributes its own result regardless of the others). -/
def run_all_scrapers (today : Date) (now : String) (env : AllEnv) : List Alert :=
  scrape_icra_ratings env.driver today now env.icra
    ++ scrape_careedge_ratings env.driver today now env.care
    ++ scrape_acuite_ratings env.driver today now env.acuite
    ++ scrape_crisil_ratings env.driver today now env.crisil
    ++ scrape_bse_announcements env.driver today now env.bse
    ++ scrape_nse_announcements env.driver today now env.nse
    ++ scrape_sebi_announcements env.driver today now env.sebi

/-! ### Aggregator / reporter -/

/-- One step of building the `by_agency` dict: Python dicts preserve insertion
order, and `by_agency[agency].append(alert)` appends at the end of the
matching entry's list, creating the entry on first sight. -/
def addToGroup : List (String × List Alert) → Alert → List (String × List Alert)
  | [], alert => [(alert.agency, [alert])]
  | (k, l) :: rest, alert =>
    if k = alert.agency then (k, l ++ [alert]) :: rest
    else (k, l) :: addToGroup rest alert

/-- The `by_agency` grouping of `generate_alert_report`. -/
def groupByAgency (alerts : List Alert) : List (String × List Alert) :=
  alerts.foldl addToGroup []

/-- Ordered dict lookup (first matching key) with `[]` default. -/
def lookupGroup : List (String × List Alert) → String → List Alert
  | [], _ => []
  | (k, l) :: rest, key => if k = key then l else lookupGroup rest key

/-- The distinct values of a list in first-seen order (the specification's
"first-seen-order of sources"). -/
def firstSeenKeys (names : List String) : List String :=
  names.foldl (fun acc a => if a ∈ acc then acc else acc ++ [a]) []

/-- `'c' * n`. -/
def repChar (c : Char) (n : Nat) : String := ⟨List.replicate n c⟩

/-- The four report lines one alert contributes. -/
def alertLines (a : Alert) : List String :=
  ["Company: " ++ a.company, "Date: " ++ a.date, "Action: " ++ a.action, ""]

/-- The report lines one agency group contributes. -/
def groupLines (g : String × List Alert) : List String :=
  (g.1 ++ " (" ++ toString g.2.length ++ " alerts):") :: repChar '-' 30 ::
    ((g.2.map alertLines).flatten ++ [""])

/-- `generate_alert_report(alerts)`. -/
def generate_alert_report (today : Date) (alerts : List Alert) : String :=
  if alerts = [] then "No alerts found for today."
  else
    let header := [repChar '=' 60,
      "RATING AGENCY ALERTS - " ++ fmt_dd_sp_month_yyyy today,
      repChar '=' 60, ""]
    let body := ((groupByAgency alerts).map groupLines).flatten
    String.intercalate "\n" (header ++ body)

/-! ### C9: grouping in the report -/

theorem lookupGroup_addToGroup (gs : List (String × List Alert)) (a : Alert) (k : String) :
    lookupGroup (addToGroup gs a) k =
      if a.agency = k then lookupGroup gs k ++ [a] else lookupGroup gs k := by
  induction gs with
  | nil =>
    by_cases h : a.agency = k
    · simp [addToGroup, lookupGroup, h]
    · simp [addToGroup, lookupGroup, h]
  | cons g rest ih =>
    obtain ⟨k', l⟩ := g
    by_cases h1 : k' = a.agency
    · by_cases h2 : k' = k
      · have hak : a.agency = k := h1 ▸ h2
        simp [addToGroup, lookupGroup, h1, h2, hak]
      · have hak : ¬ a.agency = k := fun h => h2 (h1.trans h)
        simp [addToGroup, lookupGroup, h1, h2, hak]
    · by_cases h2 : k' = k
      · have hak : ¬ a.agency = k := fun h => h1 (h2.trans h.symm)
        have h1' : ¬ k = a.agency := fun h => h1 (h2.trans h)
        simp [addToGroup, lookupGroup, h1, h2, h1', hak]
      · simp [addToGroup, lookupGroup, h1, h2, ih]

theorem sum_addToGroup (gs : List (String × List Alert)) (a : Alert) :
    ((addToGroup gs a).map (fun g => g.2.length)).sum
      = ((gs.map (fun g => g.2.length)).sum) + 1 := by
  induction gs with
  | nil => simp [addToGroup]
  | cons g rest ih =>
    obtain ⟨k', l⟩ := g
    by_cases h1 : k' = a.agency
    · simp [addToGroup, h1]
      omega
    · simp [addToGroup, h1, ih]
      omega

theorem keys_addToGroup (gs : List (String × List Alert)) (a : Alert) :
    (addToGroup gs a).map Prod.fst =
      if a.agency ∈ gs.map Prod.fst then gs.map Prod.fst
      else gs.map Prod.fst ++ [a.agency] := by
  induction gs with
  | nil => simp [addToGroup]
  | cons g rest ih =>
    obtain ⟨k', l⟩ := g
    by_cases h1 : k' = a.agency
    · subst h1
      simp [addToGroup]
    · have hne : ¬ a.agency = k' := fun h => h1 h.symm
      by_cases h2 : a.agency ∈ rest.map Prod.fst <;>
        simp [addToGroup, h1, hne, ih, h2]

theorem lookupGroup_foldl (alerts : List Alert) :
    ∀ (gs : List (String × List Alert)) (k : String),
      lookupGroup (alerts.foldl addToGroup gs) k
        = lookupGroup gs k ++ alerts.filter (fun a => a.agency == k) := by
  induction alerts with
  | nil => intro gs k; simp
  | cons a rest ih =>
    intro gs k
    rw [List.foldl_cons, ih, lookupGroup_addToGroup]
    by_cases h : a.agency = k
    · simp [List.filter_cons, h]
    · simp [List.filter_cons, h]

theorem sum_foldl (alerts : List Alert) :
    ∀ gs : List (String × List Alert),
      ((alerts.foldl addToGroup gs).map (fun g => g.2.length)).sum
        = (gs.map (fun g => g.2.length)).sum + alerts.length := by
  induction alerts with
  | nil => intro gs; simp
  | cons a rest ih =>
    intro gs
    rw [List.foldl_cons, ih, sum_addToGroup]
    simp
    omega

theorem keys_foldl (alerts : List Alert) :
    ∀ gs : List (String × List Alert),
      (alerts.foldl addToGroup gs).map Prod.fst
        = (alerts.map (fun a => a.agency)).foldl
            (fun acc x => if x ∈ acc then acc else acc ++ [x]) (gs.map Prod.fst) := by
  induction alerts with
  | nil => intro gs; simp
  | cons a rest ih =>
    intro gs
    rw [List.foldl_cons, ih, keys_addToGroup]
    rfl

/-- C9: `generate_alert_report` on the empty sequence is the fixed no-alerts
message; on any input the `by_agency` grouping it renders preserves the total
alert count, each group is exactly the input subsequence of its source (hence
intra-group order is input order), and the group keys are the sources in
first-seen order. -/
theorem C9_generate_alert_report_grouping (today : Date) :
    generate_alert_report today [] = "No alerts found for today."
    ∧ (∀ alerts : List Alert,
        ((groupByAgency alerts).map (fun g => g.2.length)).sum = alerts.length)
    ∧ (∀ (alerts : List Alert) (k : String),
        lookupGroup (groupByAgency alerts) k = alerts.filter (fun a => a.agency == k))
    ∧ (∀ alerts : List Alert,
        (groupByAgency alerts).map Prod.fst
          = firstSeenKeys (alerts.map (fun a => a.agency))) := by
  refine ⟨rfl, ?_, ?_, ?_⟩
  · intro alerts
    have := sum_foldl alerts []
    simpa [groupByAgency] using this
  · intro alerts k
    have := lookupGroup_foldl alerts [] k
    simpa [groupByAgency, lookupGroup] using this
  · intro alerts
    have := keys_foldl alerts []
    simpa [groupByAgency, firstSeenKeys] using this

/-! ### C7: CRISIL load-more strategy -/

/-- C7: the CRISIL adapter extracts exactly once, from the final fully
expanded snapshot — its result is one application of `crisil_extract` to the
final items, and is invariant under the click-loop history — and the click
loop runs exactly as long as the control is present, displayed and enabled
(its click count is the length of the leading run of clickable states; the
first absent/not-displayed/disabled state exhausts it). -/
theorem C7_crisil_single_extraction (today : Date) (now : String) (env : CrisilEnv) :
    (env.nav = Except.ok () →
      scrape_crisil_ratings true today now env = crisil_extract today now env.items)
    ∧ (∀ bs : List LoadBtn,
        scrape_crisil_ratings true today now ⟨env.nav, bs, env.items⟩
          = scrape_crisil_ratings true today now env)
    ∧ crisil_click_loop env.buttons = (env.buttons.takeWhile isClickable).length := by
  refine ⟨?_, ?_, ?_⟩
  · intro h
    simp [scrape_crisil_ratings, h]
  · intro bs
    cases h : env.nav with
    | error e => simp [scrape_crisil_ratings, h]
    | ok u => simp [scrape_crisil_ratings, h]
  · induction env.buttons with
    | nil => rfl
    | cons b rest ih =>
      by_cases hb : isClickable b = true
      · simp [crisil_click_loop, List.takeWhile_cons, hb, ih]
      · simp only [Bool.not_eq_true] at hb
        simp [crisil_click_loop, List.takeWhile_cons, hb]

/-- Concrete CRISIL environment: the Load More control vanishes after two
clicks. -/
def crisilEnvTwoClicks : CrisilEnv :=
  ⟨Except.ok (), [LoadBtn.clickable, LoadBtn.clickable, LoadBtn.absent], []⟩

/-- Witness for C7 at a button that disappears after two clicks. -/
theorem C7_crisil_witness :
    scrape_crisil_ratings true dateOct12 "T0" crisilEnvTwoClicks
      = crisil_extract dateOct12 "T0" crisilEnvTwoClicks.items :=
  (C7_crisil_single_extraction dateOct12 "T0" crisilEnvTwoClicks).1 rfl

/-! ### C8: infinite-scroll termination and monotone accumulation -/

theorem flatten_take_length_le (L : List (List Frag)) :
    ∀ i, ((L.take i).flatten).length ≤ (L.flatten).length := by
  induction L with
  | nil => intro i; simp
  | cons x xs ih =>
    intro i
    cases i with
    | zero => simp
    | succ j =>
      simp only [List.take_succ_cons, List.flatten_cons, List.length_append]
      have := ih j
      omega

/-- C8: the scroll loop of the CareEdge adapter returns (terminates) exactly
when some two consecutive height measurements are equal; when it stops after
`n` iterations the `n`-th measurement equals its predecessor and no earlier
consecutive pair was equal (first fixed point); and the content visible after
`i` scroll iterations grows monotonically with `i`. -/
theorem C8_infinite_scroll_fixed_point :
    (∀ (last : Nat) (hs : List Nat),
      (scroll_iterations last hs).isSome = true ↔
        ∃ i, i + 1 < (last :: hs).length
          ∧ (last :: hs).getD i 0 = (last :: hs).getD (i + 1) 0)
    ∧ (∀ (last : Nat) (hs : List Nat) (n : Nat),
        scroll_iterations last hs = some n →
          1 ≤ n ∧ n < (last :: hs).length
          ∧ (last :: hs).getD (n - 1) 0 = (last :: hs).getD n 0
          ∧ ∀ m, m + 1 < n →
              (last :: hs).getD m 0 ≠ (last :: hs).getD (m + 1) 0)
    ∧ (∀ (chunks : List (List Frag)) (i j : Nat), i ≤ j →
        (visibleItems chunks i).length ≤ (visibleItems chunks j).length) := by
  refine ⟨?_, ?_, ?_⟩
  · intro last hs
    induction hs generalizing last with
    | nil =>
      simp only [scroll_iterations, Option.isSome_none]
      constructor
      · intro h; cases h
      · rintro ⟨i, hi, _⟩
        simp at hi
    | cons h t ih =>
      by_cases heq : h = last
      · simp only [scroll_iterations, if_pos heq, Option.isSome_some, true_iff]
        exact ⟨0, by simp, by simp [heq]⟩
      · rw [scroll_iterations, if_neg heq]
        have hiso : (Option.map (fun x => x + 1) (scroll_iterations h t)).isSome
            = (scroll_iterations h t).isSome := by
          cases scroll_iterations h t <;> rfl
        rw [hiso, ih h]
        constructor
        · rintro ⟨i, hi, hgd⟩
          refine ⟨i + 1, by simpa using hi, ?_⟩
          simpa using hgd
        · rintro ⟨i, hi, hgd⟩
          cases i with
          | zero =>
            exfalso
            simp at hgd
            exact heq hgd.symm
          | succ j =>
            refine ⟨j, by simpa using hi, ?_⟩
            simpa using hgd
  · intro last hs
    induction hs generalizing last with
    | nil => intro n h; cases h
    | cons h t ih =>
      intro n hn
      by_cases heq : h = last
      · rw [scroll_iterations, if_pos heq] at hn
        injection hn with hn1
        subst hn1
        refine ⟨le_refl 1, by simp, by simp [heq], ?_⟩
        intro m hm
        omega
      · rw [scroll_iterations, if_neg heq] at hn
        rw [Option.map_eq_some'] at hn
        obtain ⟨m, hm, hmn⟩ := hn
        obtain ⟨hm1, hm2, hm3, hm4⟩ := ih h m hm
        subst hmn
        refine ⟨by omega, by simpa using hm2, ?_, ?_⟩
        · have hms : m + 1 - 1 = m := by omega
          rw [hms]
          obtain ⟨k, hk⟩ : ∃ k, m = k + 1 := ⟨m - 1, by omega⟩
          subst hk
          simpa using hm3
        · intro p hp
          cases p with
          | zero =>
            simp only [List.getD_cons_zero, List.getD_cons_succ]
            intro habs
            exact heq habs.symm
          | succ q =>
            have := hm4 q (by omega)
            simpa using this
  · intro chunks i j hij
    have h1 : chunks.take i = (chunks.take j).take i := by
      rw [List.take_take]
      rw [Nat.min_eq_left hij]
    unfold visibleItems
    rw [h1]
    exact flatten_take_length_le (chunks.take j) i

/-- Witness for C8: a run whose heights are `10, 20, 20` stops after the
second iteration (the first fixed point), and one loaded chunk grows the
visible count. -/
theorem C8_infinite_scroll_witness :
    ((10 : Nat) :: [20, 20]).getD (2 - 1) 0 = ((10 : Nat) :: [20, 20]).getD 2 0
    ∧ (visibleItems [[⟨"div", []⟩]] 0).length ≤ (visibleItems [[⟨"div", []⟩]] 1).length :=
  ⟨(C8_infinite_scroll_fixed_point.2.1 10 [20, 20] 2 (by decide)).2.2.1,
   C8_infinite_scroll_fixed_point.2.2 [[⟨"div", []⟩]] 0 1 (by decide)⟩

/-! ### C1: the emitted-alert invariant -/

/-- Every rendering of today, fed whole to `is_today_date`, is recognised. -/
theorem is_today_date_fmt (today : Date) (fmt : String)
    (hf : fmt ∈ today_formats today) : is_today_date today fmt = true := by
  have hg := today_formats_good today fmt hf
  have hne : fmt ≠ "" := str_ne_empty_of_data hg.ne
  rw [is_today_date, if_neg hne]
  exact List.any_eq_true.mpr ⟨fmt, hf,
    (isSubL_iff _ _).mpr (infix_cleanedL _ _ hg ⟨[], [], by simp⟩)⟩

theorem mem_paged_loop (page : List Frag → List Alert) :
    ∀ (pages : List (List Frag × NextBtn)) (a : Alert), a ∈ paged_loop page pages →
      ∃ rows btn, (rows, btn) ∈ pages ∧ a ∈ page rows := by
  intro pages
  induction pages with
  | nil => intro a ha; exact absurd ha (List.not_mem_nil a)
  | cons pg rest ih =>
    obtain ⟨rows, btn⟩ := pg
    intro a ha
    simp only [paged_loop] at ha
    rcases List.mem_append.mp ha with h1 | h2
    · exact ⟨rows, btn, List.mem_cons_self _ _, h1⟩
    · by_cases hb : btn = NextBtn.enabled
      · rw [if_pos hb] at h2
        obtain ⟨r, b, hm, hp⟩ := ih a h2
        exact ⟨r, b, List.mem_cons_of_mem _ hm, hp⟩
      · rw [if_neg hb] at h2
        exact absurd h2 (List.not_mem_nil a)

theorem icra_row_ok (today : Date) (now : String) (row : Frag) (a : Alert)
    (h : icra_row today now row = some a) :
    a.company ≠ "" ∧ is_today_date today a.date = true ∧ a.agency = "ICRA" := by
  simp only [icra_row] at h
  split at h
  · rename_i hc
    injection h with h1
    subst h1
    exact ⟨hc.1, hc.2, rfl⟩
  · cases h

theorem careedge_item_ok (today : Date) (now : String) (item : Frag) (a : Alert)
    (h : careedge_item today now item = some a) :
    a.company ≠ "" ∧ is_today_date today a.date = true ∧ a.agency = "CareEdge" := by
  simp only [careedge_item] at h
  split at h
  · rename_i hc
    injection h with h1
    subst h1
    exact ⟨hc.1, hc.2, rfl⟩
  · cases h

theorem acuite_row_ok (today : Date) (now : String) (row : Frag) (a : Alert)
    (h : acuite_row today now row = some a) :
    a.company ≠ "" ∧ is_today_date today a.date = true ∧ a.agency = "Acuite" := by
  simp only [acuite_row] at h
  split at h
  · split at h
    · rename_i hc
      injection h with h1
      subst h1
      exact ⟨hc.1, hc.2, rfl⟩
    · cases h
  · cases h

theorem crisil_item_ok (today : Date) (now : String) (item : Frag) (a : Alert)
    (h : crisil_item today now item = some a) :
    a.company ≠ "" ∧ is_today_date today a.date = true ∧ a.agency = "CRISIL" := by
  simp only [crisil_item] at h
  split at h
  · rename_i hc
    injection h with h1
    subst h1
    exact ⟨hc.1, hc.2, rfl⟩
  · cases h

theorem bse_row_ok (segment current_date now : String) (row : Frag) (a : Alert)
    (h : bse_row segment current_date now row = some a) :
    a.company ≠ "" ∧ a.date = current_date ∧ a.agency = "BSE (" ++ segment ++ ")" := by
  simp only [bse_row] at h
  split at h
  · split at h
    · rename_i hc
      injection h with h1
      subst h1
      exact ⟨hc, rfl, rfl⟩
    · cases h
  · cases h

theorem sebi_row_ok (today : Date) (now : String) (row : Frag) (a : Alert)
    (h : sebi_row today now row = some a) :
    a.company = "SEBI Announcement" ∧ is_today_date today a.date = true
    ∧ a.agency = "SEBI" := by
  simp only [sebi_row] at h
  split at h
  · split at h
    · rename_i hc
      injection h with h1
      subst h1
      exact ⟨rfl, hc.2, rfl⟩
    · cases h
  · cases h

theorem nse_rows_ok (today : Date) (now segment : String) :
    ∀ (rows : List Frag) (st : Option (String × String × String)),
      ∀ a ∈ (nse_rows today now segment rows st).1,
        a.company ≠ "" ∧ is_today_date today a.date = true
        ∧ a.agency = "NSE (" ++ segment ++ ")" := by
  intro rows
  induction rows with
  | nil =>
    intro st a ha
    simp only [nse_rows] at ha
    exact absurd ha (List.not_mem_nil a)
  | cons row rest ih =>
    intro st a ha
    rcases hnv : nse_row_vals row with _ | ⟨c, s, d⟩
    · cases st with
      | none =>
        simp only [nse_rows, hnv] at ha
        exact ih none a ha
      | some v =>
        obtain ⟨c, s, d⟩ := v
        simp only [nse_rows, hnv] at ha
        by_cases hc : c ≠ "" ∧ is_today_date today d = true
        · rw [if_pos hc] at ha
          rcases List.mem_cons.mp ha with h1 | h2
          · subst h1
            exact ⟨hc.1, hc.2, rfl⟩
          · exact ih (some (c, s, d)) a h2
        · rw [if_neg hc] at ha
          exact ih (some (c, s, d)) a ha
    · simp only [nse_rows, hnv] at ha
      by_cases hc : c ≠ "" ∧ is_today_date today d = true
      · rw [if_pos hc] at ha
        rcases List.mem_cons.mp ha with h1 | h2
        · subst h1
          exact ⟨hc.1, hc.2, rfl⟩
        · exact ih (some (c, s, d)) a h2
      · rw [if_neg hc] at ha
        exact ih (some (c, s, d)) a ha

theorem scrape_icra_ok (driver : Bool) (today : Date) (now : String) (env : IcraEnv) :
    ∀ a ∈ scrape_icra_ratings driver today now env,
      a.company ≠ "" ∧ is_today_date today a.date = true ∧ a.agency = "ICRA" := by
  intro a ha
  unfold scrape_icra_ratings at ha
  split at ha
  · exact absurd ha (List.not_mem_nil a)
  · split at ha
    · exact absurd ha (List.not_mem_nil a)
    · obtain ⟨rows, btn, _, hp⟩ := mem_paged_loop _ _ _ ha
      simp only [icra_page] at hp
      obtain ⟨row, _, heq⟩ := List.mem_filterMap.mp hp
      exact icra_row_ok today now row a heq

theorem scrape_careedge_ok (driver : Bool) (today : Date) (now : String) (env : CareEnv) :
    ∀ a ∈ scrape_careedge_ratings driver today now env,
      a.company ≠ "" ∧ is_today_date today a.date = true ∧ a.agency = "CareEdge" := by
  intro a ha
  unfold scrape_careedge_ratings at ha
  split at ha
  · exact absurd ha (List.not_mem_nil a)
  · split at ha
    · exact absurd ha (List.not_mem_nil a)
    · split at ha
      · exact absurd ha (List.not_mem_nil a)
      · split at ha
        · obtain ⟨item, _, heq⟩ := List.mem_filterMap.mp ha
          exact careedge_item_ok today now item a heq
        · obtain ⟨item, _, heq⟩ := List.mem_filterMap.mp ha
          exact careedge_item_ok today now item a heq

theorem scrape_acuite_ok (driver : Bool) (today : Date) (now : String) (env : AcuiteEnv) :
    ∀ a ∈ scrape_acuite_ratings driver today now env,
      a.company ≠ "" ∧ is_today_date today a.date = true ∧ a.agency = "Acuite" := by
  intro a ha
  unfold scrape_acuite_ratings at ha
  split at ha
  · exact absurd ha (List.not_mem_nil a)
  · split at ha
    · exact absurd ha (List.not_mem_nil a)
    · obtain ⟨rows, btn, _, hp⟩ := mem_paged_loop _ _ _ ha
      simp only [acuite_page] at hp
      obtain ⟨row, _, heq⟩ := List.mem_filterMap.mp hp
      exact acuite_row_ok today now row a heq

theorem scrape_crisil_ok (driver : Bool) (today : Date) (now : String) (env : CrisilEnv) :
    ∀ a ∈ scrape_crisil_ratings driver today now env,
      a.company ≠ "" ∧ is_today_date today a.date = true ∧ a.agency = "CRISIL" := by
  intro a ha
  unfold scrape_crisil_ratings at ha
  split at ha
  · exact absurd ha (List.not_mem_nil a)
  · split at ha
    · exact absurd ha (List.not_mem_nil a)
    · simp only [crisil_extract] at ha
      obtain ⟨item, _, heq⟩ := List.mem_filterMap.mp ha
      exact crisil_item_ok today now item a heq

theorem scrape_bse_ok (driver : Bool) (today : Date) (now : String) (env : BseEnv) :
    ∀ a ∈ scrape_bse_announcements driver today now env,
      a.company ≠ "" ∧ is_today_date today a.date = true
      ∧ (a.agency = "BSE (Equity)" ∨ a.agency = "BSE (Debt)") := by
  intro a ha
  have hfmt : is_today_date today (fmt_dd_slash_mm_yyyy today) = true :=
    is_today_date_fmt today _ (by simp [today_formats])
  unfold scrape_bse_announcements at ha
  split at ha
  · exact absurd ha (List.not_mem_nil a)
  · split at ha
    · exact absurd ha (List.not_mem_nil a)
    · rcases List.mem_append.mp ha with h1 | h2
      · split at h1
        · exact absurd h1 (List.not_mem_nil a)
        · simp only [bse_segment] at h1
          obtain ⟨row, _, heq⟩ := List.mem_filterMap.mp h1
          obtain ⟨hc, hd, hag⟩ := bse_row_ok _ _ _ _ _ heq
          rw [hd]
          exact ⟨hc, hfmt, Or.inl hag⟩
      · split at h2
        · exact absurd h2 (List.not_mem_nil a)
        · simp only [bse_segment] at h2
          obtain ⟨row, _, heq⟩ := List.mem_filterMap.mp h2
          obtain ⟨hc, hd, hag⟩ := bse_row_ok _ _ _ _ _ heq
          rw [hd]
          exact ⟨hc, hfmt, Or.inr hag⟩

theorem scrape_nse_ok (driver : Bool) (today : Date) (now : String) (env : NseEnv) :
    ∀ a ∈ scrape_nse_announcements driver today now env,
      a.company ≠ "" ∧ is_today_date today a.date = true
      ∧ (a.agency = "NSE (Equity)" ∨ a.agency = "NSE (Debt)") := by
  intro a ha
  unfold scrape_nse_announcements at ha
  split at ha
  · exact absurd ha (List.not_mem_nil a)
  · split at ha
    · exact absurd ha (List.not_mem_nil a)
    · rcases List.mem_append.mp ha with h1 | h2
      · split at h1
        · exact absurd h1 (List.not_mem_nil a)
        · obtain ⟨hc, hd, hag⟩ := nse_rows_ok today now "Equity" _ _ a h1
          exact ⟨hc, hd, Or.inl hag⟩
      · split at h2
        · exact absurd h2 (List.not_mem_nil a)
        · obtain ⟨hc, hd, hag⟩ := nse_rows_ok today now "Debt" _ _ a h2
          exact ⟨hc, hd, Or.inr hag⟩

theorem scrape_sebi_ok (driver : Bool) (today : Date) (now : String) (env : SebiEnv) :
    ∀ a ∈ scrape_sebi_announcements driver today now env,
      a.company = "SEBI Announcement" ∧ is_today_date today a.date = true
      ∧ a.agency = "SEBI" := by
  intro a ha
  unfold scrape_sebi_announcements at ha
  split at ha
  · exact absurd ha (List.not_mem_nil a)
  · split at ha
    · exact absurd ha (List.not_mem_nil a)
    · obtain ⟨rows, btn, _, hp⟩ := mem_paged_loop _ _ _ ha
      simp only [sebi_page] at hp
      obtain ⟨row, _, heq⟩ := List.mem_filterMap.mp hp
      exact sebi_row_ok today now row a heq

/-- C1: every alert any adapter emits has a non-empty `company` and a `date`
recognised by `is_today_date`; the SEBI adapter's alerts carry the constant
placeholder entity `'SEBI Announcement'` (the record is kept, not dropped);
no adapter ever appends an alert with an empty `company`. -/
theorem C1_alert_invariant (today : Date) (now : String) (env : AllEnv) :
    ∀ a ∈ run_all_scrapers today now env,
      a.company ≠ "" ∧ is_today_date today a.date = true
      ∧ (a.agency = "SEBI" → a.company = "SEBI Announcement") := by
  intro a ha
  unfold run_all_scrapers at ha
  rcases List.mem_append.mp ha with h6 | hse
  rcases List.mem_append.mp h6 with h5 | hns
  rcases List.mem_append.mp h5 with h4 | hbs
  rcases List.mem_append.mp h4 with h3 | hcr
  rcases List.mem_append.mp h3 with h2 | hac
  rcases List.mem_append.mp h2 with hic | hca
  · obtain ⟨hc, hd, hag⟩ := scrape_icra_ok _ _ _ _ a hic
    exact ⟨hc, hd, fun h => absurd (hag.symm.trans h) (by decide)⟩
  · obtain ⟨hc, hd, hag⟩ := scrape_careedge_ok _ _ _ _ a hca
    exact ⟨hc, hd, fun h => absurd (hag.symm.trans h) (by decide)⟩
  · obtain ⟨hc, hd, hag⟩ := scrape_acuite_ok _ _ _ _ a hac
    exact ⟨hc, hd, fun h => absurd (hag.symm.trans h) (by decide)⟩
  · obtain ⟨hc, hd, hag⟩ := scrape_crisil_ok _ _ _ _ a hcr
    exact ⟨hc, hd, fun h => absurd (hag.symm.trans h) (by decide)⟩
  · obtain ⟨hc, hd, hag⟩ := scrape_bse_ok _ _ _ _ a hbs
    refine ⟨hc, hd, fun h => ?_⟩
    rcases hag with hag | hag <;> exact absurd (hag.symm.trans h) (by decide)
  · obtain ⟨hc, hd, hag⟩ := scrape_nse_ok _ _ _ _ a hns
    refine ⟨hc, hd, fun h => ?_⟩
    rcases hag with hag | hag <;> exact absurd (hag.symm.trans h) (by decide)
  · obtain ⟨hc, hd, hag⟩ := scrape_sebi_ok _ _ _ _ a hse
    exact ⟨by rw [hc]; decide, hd, fun _ => hc⟩

/-- A SEBI page with a header row and one announcement row dated today. -/
def sebiHeaderRow : Frag :=
  ⟨"tr", [DNode.el ⟨"td", none, "Date", some "Date"⟩,
          DNode.el ⟨"td", none, "Subject", some "Subject"⟩]⟩

def sebiDataRow : Frag :=
  ⟨"tr", [DNode.el ⟨"td", none, "12/10/2025", some "12/10/2025"⟩,
          DNode.el ⟨"td", none, "Circular on margin norms", some "Circular on margin norms"⟩]⟩

/-- A concrete run environment: working session, all sources empty except one
SEBI page with one announcement row. -/
def allEnvWitness : AllEnv :=
  ⟨true,
   ⟨Except.ok (), []⟩,
   ⟨Except.ok (), false, 0, [], []⟩,
   ⟨Except.ok (), []⟩,
   ⟨Except.ok (), [], []⟩,
   ⟨Except.ok (), Except.ok [], Except.ok []⟩,
   ⟨Except.ok (), none, none⟩,
   ⟨Except.ok (), [([sebiHeaderRow, sebiDataRow], NextBtn.absent)]⟩⟩

def sebiAlertW : Alert :=
  ⟨"SEBI", "SEBI Announcement", "12/10/2025", "Circular on margin norms", "T0"⟩

/-- Witness for C1 on the alert the concrete run emits. -/
theorem C1_alert_invariant_witness :
    sebiAlertW.company ≠ "" ∧ is_today_date dateOct12 sebiAlertW.date = true
    ∧ (sebiAlertW.agency = "SEBI" → sebiAlertW.company = "SEBI Announcement") :=
  C1_alert_invariant dateOct12 "T0" allEnvWitness sebiAlertW (by decide)

/-! ### C4: adapters are total and independent -/

/-- C4: every adapter is a total function into alert sequences (the embedding
of "never propagates an exception"); with no browser session every adapter —
hence the whole run — returns the empty sequence; a navigation fault inside
any one adapter makes that adapter return the empty sequence; and the run is
always the concatenation of the seven per-adapter results, each depending
only on its own environment, so a failing source never affects its siblings. -/
theorem C4_adapter_isolation (today : Date) (now : String) (env : AllEnv) :
    run_all_scrapers today now env
      = scrape_icra_ratings env.driver today now env.icra
        ++ scrape_careedge_ratings env.driver today now env.care
        ++ scrape_acuite_ratings env.driver today now env.acuite
        ++ scrape_crisil_ratings env.driver today now env.crisil
        ++ scrape_bse_announcements env.driver today now env.bse
        ++ scrape_nse_announcements env.driver today now env.nse
        ++ scrape_sebi_announcements env.driver today now env.sebi
    ∧ (env.driver = false → run_all_scrapers today now env = [])
    ∧ (∀ e, env.icra.nav = Except.error e →
        scrape_icra_ratings env.driver today now env.icra = [])
    ∧ (∀ e, env.care.nav = Except.error e →
        scrape_careedge_ratings env.driver today now env.care = [])
    ∧ (∀ e, env.acuite.nav = Except.error e →
        scrape_acuite_ratings env.driver today now env.acuite = [])
    ∧ (∀ e, env.crisil.nav = Except.error e →
        scrape_crisil_ratings env.driver today now env.crisil = [])
    ∧ (∀ e, env.bse.nav = Except.error e →
        scrape_bse_announcements env.driver today now env.bse = [])
    ∧ (∀ e, env.nse.nav = Except.error e →
        scrape_nse_announcements env.driver today now env.nse = [])
    ∧ (∀ e, env.sebi.nav = Except.error e →
        scrape_sebi_announcements env.driver today now env.sebi = []) := by
  refine ⟨rfl, ?_, ?_, ?_, ?_, ?_, ?_, ?_, ?_⟩
  · intro hd
    unfold run_all_scrapers
    simp [scrape_icra_ratings, scrape_careedge_ratings, scrape_acuite_ratings,
      scrape_crisil_ratings, scrape_bse_announcements, scrape_nse_announcements,
      scrape_sebi_announcements, hd]
  · intro e he
    cases hd : env.driver <;>
      simp [scrape_icra_ratings, he, hd]
  · intro e he
    cases hd : env.driver <;>
      simp [scrape_careedge_ratings, he, hd]
  · intro e he
    cases hd : env.driver <;>
      simp [scrape_acuite_ratings, he, hd]
  · intro e he
    cases hd : env.driver <;>
      simp [scrape_crisil_ratings, he, hd]
  · intro e he
    cases hd : env.driver <;>
      simp [scrape_bse_announcements, he, hd]
  · intro e he
    cases hd : env.driver <;>
      simp [scrape_nse_announcements, he, hd]
  · intro e he
    cases hd : env.driver <;>
      simp [scrape_sebi_announcements, he, hd]

/-- A run environment whose Selenium setup failed (`self.driver is None`). -/
def allEnvNoDriver : AllEnv :=
  ⟨false,
   ⟨Except.ok (), []⟩,
   ⟨Except.ok (), false, 0, [], []⟩,
   ⟨Except.ok (), []⟩,
   ⟨Except.ok (), [], []⟩,
   ⟨Except.ok (), Except.ok [], Except.ok []⟩,
   ⟨Except.ok (), none, none⟩,
   ⟨Except.ok (), []⟩⟩

/-- An environment whose ICRA navigation raises. -/
def allEnvIcraFault : AllEnv :=
  ⟨true,
   ⟨Except.error "nav timeout", [([sebiHeaderRow, sebiDataRow], NextBtn.absent)]⟩,
   ⟨Except.ok (), false, 0, [], []⟩,
   ⟨Except.ok (), []⟩,
   ⟨Except.ok (), [], []⟩,
   ⟨Except.ok (), Except.ok [], Except.ok []⟩,
   ⟨Except.ok (), none, none⟩,
   ⟨Except.ok (), []⟩⟩

/-- Witness for C4: the no-session run yields the empty sequence, and a
navigation fault inside the ICRA adapter yields the empty sequence from ICRA
alone. -/
theorem C4_adapter_isolation_witness :
    run_all_scrapers dateOct12 "T0" allEnvNoDriver = []
    ∧ scrape_icra_ratings allEnvIcraFault.driver dateOct12 "T0" allEnvIcraFault.icra = [] :=
  ⟨(C4_adapter_isolation dateOct12 "T0" allEnvNoDriver).2.1 rfl,
   (C4_adapter_isolation dateOct12 "T0" allEnvIcraFault).2.2.1 "nav timeout" rfl⟩

/-! ### C3: provenance of the `date` field -/

/-- Every string occurring anywhere in a fragment (cell texts, `.string`
values, raw text nodes). -/
def fragStrings (f : Frag) : List String :=
  (f.nodes.map (fun n =>
    match n with
    | DNode.el e => e.textStrip :: e.str.toList
    | DNode.tx t => [t])).flatten

def bseHeaderRow : Frag :=
  ⟨"tr", [DNode.el ⟨"td", none, "Security", some "Security"⟩,
          DNode.el ⟨"td", none, "Company", some "Company"⟩,
          DNode.el ⟨"td", none, "Subject", some "Subject"⟩]⟩

/-- A BSE announcement row whose own (first-cell) text is an old date. -/
def bseDataRow : Frag :=
  ⟨"tr", [DNode.el ⟨"td", none, "01-01-1999", some "01-01-1999"⟩,
          DNode.el ⟨"td", none, "ACME Corp", some "ACME Corp"⟩,
          DNode.el ⟨"td", none, "Board meeting", some "Board meeting"⟩]⟩

def bseEnvCx : BseEnv :=
  ⟨Except.ok (), Except.ok [bseHeaderRow, bseDataRow], Except.ok []⟩

/-- Counterexample for C3: the BSE adapter emits an alert whose `date` is the
system-generated current-date string `12/10/2025`, which occurs nowhere in
the candidate row — the row's own date cell reads `01-01-1999` — so the
`eventDate` of a BSE alert is synthesized, not extracted verbatim. -/
theorem C3_eventDate_counterexample :
    scrape_bse_announcements true dateOct12 "T0" bseEnvCx
      = [⟨"BSE (Equity)", "ACME Corp", "12/10/2025", "Board meeting", "T0"⟩]
    ∧ (fragStrings bseDataRow).contains "12/10/2025" = false
    ∧ (tdTexts bseDataRow).getD 0 "" = "01-01-1999" := by
  refine ⟨by decide, by decide, by decide⟩

theorem icra_row_date (today : Date) (now : String) (row : Frag) (a : Alert)
    (h : icra_row today now row = some a) :
    a.date = extract_text_from_element row ["date", "rated-on"] := by
  simp only [icra_row] at h
  split at h
  · injection h with h1
    subst h1
    rfl
  · cases h

theorem careedge_item_date (today : Date) (now : String) (item : Frag) (a : Alert)
    (h : careedge_item today now item = some a) :
    a.date = extract_text_from_element item ["date", "rated-on", "timestamp"] := by
  simp only [careedge_item] at h
  split at h
  · injection h with h1
    subst h1
    rfl
  · cases h

theorem acuite_row_date (today : Date) (now : String) (row : Frag) (a : Alert)
    (h : acuite_row today now row = some a) :
    a.date = (tdTexts row).getD 0 "" := by
  simp only [acuite_row] at h
  split at h
  · split at h
    · injection h with h1
      subst h1
      rfl
    · cases h
  · cases h

theorem crisil_item_date (today : Date) (now : String) (item : Frag) (a : Alert)
    (h : crisil_item today now item = some a) :
    a.date = extract_text_from_element item ["date", "rated-on", "timestamp"] := by
  simp only [crisil_item] at h
  split at h
  · injection h with h1
    subst h1
    rfl
  · cases h

theorem sebi_row_date (today : Date) (now : String) (row : Frag) (a : Alert)
    (h : sebi_row today now row = some a) :
    a.date = (tdTexts row).getD 0 "" := by
  simp only [sebi_row] at h
  split at h
  · split at h
    · injection h with h1
      subst h1
      rfl
    · cases h
  · cases h

theorem nse_row_vals_date (row : Frag) (c s d : String)
    (h : nse_row_vals row = some (c, s, d)) :
    d = (tdTexts row).getD 0 "" ∨ d = extract_text_from_element row ["date", "time"] := by
  simp only [nse_row_vals] at h
  split at h
  · split at h
    · injection h with h1
      simp only [Prod.mk.injEq] at h1
      exact Or.inl h1.2.2.symm
    · cases h
  · injection h with h1
    simp only [Prod.mk.injEq] at h1
    exact Or.inr h1.2.2.symm

theorem nse_rows_provenance (today : Date) (now seg : String) :
    ∀ (rows : List Frag) (st : Option (String × String × String)) (R0 : List Frag),
      (∀ v, st = some v → ∃ r ∈ R0, nse_row_vals r = some v) →
      (∀ a ∈ (nse_rows today now seg rows st).1,
          ∃ r ∈ R0 ++ rows, ∃ c s d, nse_row_vals r = some (c, s, d) ∧ a.date = d)
      ∧ (∀ v, (nse_rows today now seg rows st).2 = some v →
          ∃ r ∈ R0 ++ rows, nse_row_vals r = some v) := by
  intro rows
  induction rows with
  | nil =>
    intro st R0 hinv
    refine ⟨?_, ?_⟩
    · intro a ha
      simp only [nse_rows] at ha
      exact absurd ha (List.not_mem_nil a)
    · intro v hv
      simp only [nse_rows] at hv
      obtain ⟨r, hr, hrv⟩ := hinv v hv
      exact ⟨r, by simpa using hr, hrv⟩
  | cons row rest ih =>
    intro st R0 hinv
    have hweak : ∀ r : Frag, r ∈ R0 ++ rest → r ∈ R0 ++ row :: rest := by
      intro r hr
      rcases List.mem_append.mp hr with h | h
      · exact List.mem_append.mpr (Or.inl h)
      · exact List.mem_append.mpr (Or.inr (List.mem_cons_of_mem _ h))
    have hshift : ∀ r : Frag, r ∈ (R0 ++ [row]) ++ rest → r ∈ R0 ++ row :: rest := by
      intro r hr
      have : (R0 ++ [row]) ++ rest = R0 ++ row :: rest := by simp
      rwa [this] at hr
    have hrowmem : row ∈ R0 ++ row :: rest :=
      List.mem_append.mpr (Or.inr (List.mem_cons_self _ _))
    rcases hnv : nse_row_vals row with _ | ⟨c, s, d⟩
    · cases st with
      | none =>
        obtain ⟨ihA, ihS⟩ := ih none R0 (fun v hv => by cases hv)
        refine ⟨?_, ?_⟩
        · intro a ha
          simp only [nse_rows, hnv] at ha
          obtain ⟨r, hr, hrest⟩ := ihA a ha
          exact ⟨r, hweak r hr, hrest⟩
        · intro v hv
          simp only [nse_rows, hnv] at hv
          obtain ⟨r, hr, hrv⟩ := ihS v hv
          exact ⟨r, hweak r hr, hrv⟩
      | some v0 =>
        obtain ⟨c, s, d⟩ := v0
        obtain ⟨r0, hr0, hr0v⟩ := hinv (c, s, d) rfl
        obtain ⟨ihA, ihS⟩ := ih (some (c, s, d)) R0 (fun v hv => by
          injection hv with hv1
          exact hv1 ▸ hinv (c, s, d) rfl)
        refine ⟨?_, ?_⟩
        · intro a ha
          simp only [nse_rows, hnv] at ha
          by_cases hc : c ≠ "" ∧ is_today_date today d = true
          · rw [if_pos hc] at ha
            rcases List.mem_cons.mp ha with h1 | h2
            · exact ⟨r0, hweak r0 (List.mem_append.mpr (Or.inl hr0)), c, s, d, hr0v,
                by rw [h1]⟩
            · obtain ⟨r, hr, hrest⟩ := ihA a h2
              exact ⟨r, hweak r hr, hrest⟩
          · rw [if_neg hc] at ha
            obtain ⟨r, hr, hrest⟩ := ihA a ha
            exact ⟨r, hweak r hr, hrest⟩
        · intro v hv
          simp only [nse_rows, hnv] at hv
          by_cases hc : c ≠ "" ∧ is_today_date today d = true
          · rw [if_pos hc] at hv
            obtain ⟨r, hr, hrv⟩ := ihS v hv
            exact ⟨r, hweak r hr, hrv⟩
          · rw [if_neg hc] at hv
            obtain ⟨r, hr, hrv⟩ := ihS v hv
            exact ⟨r, hweak r hr, hrv⟩
    · obtain ⟨ihA, ihS⟩ := ih (some (c, s, d)) (R0 ++ [row]) (fun v hv => by
        injection hv with hv1
        exact ⟨row, by simp, hv1 ▸ hnv⟩)
      refine ⟨?_, ?_⟩
      · intro a ha
        simp only [nse_rows, hnv] at ha
        by_cases hc : c ≠ "" ∧ is_today_date today d = true
        · rw [if_pos hc] at ha
          rcases List.mem_cons.mp ha with h1 | h2
          · exact ⟨row, hrowmem, c, s, d, hnv, by rw [h1]⟩
          · obtain ⟨r, hr, hrest⟩ := ihA a h2
            exact ⟨r, hshift r hr, hrest⟩
        · rw [if_neg hc] at ha
          obtain ⟨r, hr, hrest⟩ := ihA a ha
          exact ⟨r, hshift r hr, hrest⟩
      · intro v hv
        simp only [nse_rows, hnv] at hv
        by_cases hc : c ≠ "" ∧ is_today_date today d = true
        · rw [if_pos hc] at hv
          obtain ⟨r, hr, hrv⟩ := ihS v hv
          exact ⟨r, hshift r hr, hrv⟩
        · rw [if_neg hc] at hv
          obtain ⟨r, hr, hrv⟩ := ihS v hv
          exact ⟨r, hshift r hr, hrv⟩

theorem mem_flatten_of_visible {x : Frag} {chunks : List (List Frag)} {i : Nat}
    (h : x ∈ visibleItems chunks i) : x ∈ chunks.flatten := by
  unfold visibleItems at h
  obtain ⟨l, hl, hx⟩ := List.mem_flatten.mp h
  exact List.mem_flatten.mpr ⟨l, List.take_subset _ _ hl, hx⟩

/-- C3 (amended): for every adapter except BSE, the `date` of each emitted
alert is the raw text extracted from a candidate record of the run (the date
hint extraction, or the date cell for positional adapters; for NSE the record
may be an earlier row when stale variables are re-emitted); the BSE adapter
instead sets `date` to the system-generated current date rendered
`%d/%m/%Y`, independent of the record. -/
theorem C3_eventDate_provenance (today : Date) (now : String) :
    (∀ (driver : Bool) (env : IcraEnv) (a : Alert),
        a ∈ scrape_icra_ratings driver today now env →
        ∃ rows btn row, (rows, btn) ∈ env.pages ∧ row ∈ rows
          ∧ a.date = extract_text_from_element row ["date", "rated-on"])
    ∧ (∀ (driver : Bool) (env : CareEnv) (a : Alert),
        a ∈ scrape_careedge_ratings driver today now env →
        ∃ item ∈ env.chunks.flatten,
          a.date = extract_text_from_element item ["date", "rated-on", "timestamp"])
    ∧ (∀ (driver : Bool) (env : AcuiteEnv) (a : Alert),
        a ∈ scrape_acuite_ratings driver today now env →
        ∃ rows btn row, (rows, btn) ∈ env.pages ∧ row ∈ rows.drop 1
          ∧ a.date = (tdTexts row).getD 0 "")
    ∧ (∀ (driver : Bool) (env : CrisilEnv) (a : Alert),
        a ∈ scrape_crisil_ratings driver today now env →
        ∃ item ∈ env.items,
          a.date = extract_text_from_element item ["date", "rated-on", "timestamp"])
    ∧ (∀ (driver : Bool) (env : NseEnv) (a : Alert),
        a ∈ scrape_nse_announcements driver today now env →
        ∃ row ∈ env.equityTab.getD [] ++ env.debtTab.getD [],
          (a.date = (tdTexts row).getD 0 ""
            ∨ a.date = extract_text_from_element row ["date", "time"]))
    ∧ (∀ (driver : Bool) (env : SebiEnv) (a : Alert),
        a ∈ scrape_sebi_announcements driver today now env →
        ∃ rows btn row, (rows, btn) ∈ env.pages ∧ row ∈ rows.drop 1
          ∧ a.date = (tdTexts row).getD 0 "")
    ∧ (∀ (driver : Bool) (env : BseEnv) (a : Alert),
        a ∈ scrape_bse_announcements driver today now env →
        a.date = fmt_dd_slash_mm_yyyy today) := by
  refine ⟨?_, ?_, ?_, ?_, ?_, ?_, ?_⟩
  · intro driver env a ha
    unfold scrape_icra_ratings at ha
    split at ha
    · exact absurd ha (List.not_mem_nil a)
    · split at ha
      · exact absurd ha (List.not_mem_nil a)
      · obtain ⟨rows, btn, hm, hp⟩ := mem_paged_loop _ _ _ ha
        simp only [icra_page] at hp
        obtain ⟨row, hrow, heq⟩ := List.mem_filterMap.mp hp
        exact ⟨rows, btn, row, hm, hrow, icra_row_date today now row a heq⟩
  · intro driver env a ha
    unfold scrape_careedge_ratings at ha
    split at ha
    · exact absurd ha (List.not_mem_nil a)
    · split at ha
      · exact absurd ha (List.not_mem_nil a)
      · split at ha
        · exact absurd ha (List.not_mem_nil a)
        · split at ha
          · obtain ⟨item, hitem, heq⟩ := List.mem_filterMap.mp ha
            exact ⟨item, mem_flatten_of_visible hitem,
              careedge_item_date today now item a heq⟩
          · obtain ⟨item, hitem, heq⟩ := List.mem_filterMap.mp ha
            exact ⟨item, mem_flatten_of_visible hitem,
              careedge_item_date today now item a heq⟩
  · intro driver env a ha
    unfold scrape_acuite_ratings at ha
    split at ha
    · exact absurd ha (List.not_mem_nil a)
    · split at ha
      · exact absurd ha (List.not_mem_nil a)
      · obtain ⟨rows, btn, hm, hp⟩ := mem_paged_loop _ _ _ ha
        simp only [acuite_page] at hp
        obtain ⟨row, hrow, heq⟩ := List.mem_filterMap.mp hp
        exact ⟨rows, btn, row, hm, hrow, acuite_row_date today now row a heq⟩
  · intro driver env a ha
    unfold scrape_crisil_ratings at ha
    split at ha
    · exact absurd ha (List.not_mem_nil a)
    · split at ha
      · exact absurd ha (List.not_mem_nil a)
      · simp only [crisil_extract] at ha
        obtain ⟨item, hitem, heq⟩ := List.mem_filterMap.mp ha
        exact ⟨item, hitem, crisil_item_date today now item a heq⟩
  · intro driver env a ha
    simp only [scrape_nse_announcements] at ha
    split at ha
    · exact absurd ha (List.not_mem_nil a)
    · split at ha
      · exact absurd ha (List.not_mem_nil a)
      · cases he : env.equityTab with
        | none =>
          rw [he] at ha
          cases hd2 : env.debtTab with
          | none =>
            rw [hd2] at ha
            exact absurd (by simpa using ha) (List.not_mem_nil a)
          | some rows2 =>
            rw [hd2] at ha
            have ha2 : a ∈ (nse_rows today now "Debt" rows2 none).1 := by
              simpa using ha
            obtain ⟨r, hr, c, s, d, hv, hd⟩ :=
              (nse_rows_provenance today now "Debt" rows2 none []
                (fun v hv => by cases hv)).1 a ha2
            refine ⟨r, ?_, ?_⟩
            · simpa using hr
            · rcases nse_row_vals_date r c s d hv with h | h
              · exact Or.inl (hd.trans h)
              · exact Or.inr (hd.trans h)
        | some rows =>
          rw [he] at ha
          cases hd2 : env.debtTab with
          | none =>
            rw [hd2] at ha
            have ha1 : a ∈ (nse_rows today now "Equity" rows none).1 := by
              simpa using ha
            obtain ⟨r, hr, c, s, d, hv, hd⟩ :=
              (nse_rows_provenance today now "Equity" rows none []
                (fun v hv => by cases hv)).1 a ha1
            refine ⟨r, ?_, ?_⟩
            · simpa using hr
            · rcases nse_row_vals_date r c s d hv with h | h
              · exact Or.inl (hd.trans h)
              · exact Or.inr (hd.trans h)
          | some rows2 =>
            rw [hd2] at ha
            have hprov1 := nse_rows_provenance today now "Equity" rows none []
              (fun v hv => by cases hv)
            rcases List.mem_append.mp ha with h1 | h2
            · obtain ⟨r, hr, c, s, d, hv, hd⟩ := hprov1.1 a h1
              refine ⟨r, ?_, ?_⟩
              · have hrr : r ∈ rows := by simpa using hr
                simp only [Option.getD_some]
                exact List.mem_append.mpr (Or.inl hrr)
              · rcases nse_row_vals_date r c s d hv with h | h
                · exact Or.inl (hd.trans h)
                · exact Or.inr (hd.trans h)
            · have hprov2 := nse_rows_provenance today now "Debt" rows2
                (nse_rows today now "Equity" rows none).2 rows
                (fun v hv => by simpa using hprov1.2 v hv)
              obtain ⟨r, hr, c, s, d, hv, hd⟩ := hprov2.1 a h2
              refine ⟨r, ?_, ?_⟩
              · simpa using hr
              · rcases nse_row_vals_date r c s d hv with h | h
                · exact Or.inl (hd.trans h)
                · exact Or.inr (hd.trans h)
  · intro driver env a ha
    unfold scrape_sebi_announcements at ha
    split at ha
    · exact absurd ha (List.not_mem_nil a)
    · split at ha
      · exact absurd ha (List.not_mem_nil a)
      · obtain ⟨rows, btn, hm, hp⟩ := mem_paged_loop _ _ _ ha
        simp only [sebi_page] at hp
        obtain ⟨row, hrow, heq⟩ := List.mem_filterMap.mp hp
        exact ⟨rows, btn, row, hm, hrow, sebi_row_date today now row a heq⟩
  · intro driver env a ha
    unfold scrape_bse_announcements at ha
    split at ha
    · exact absurd ha (List.not_mem_nil a)
    · split at ha
      · exact absurd ha (List.not_mem_nil a)
      · rcases List.mem_append.mp ha with h1 | h2
        · split at h1
          · exact absurd h1 (List.not_mem_nil a)
          · simp only [bse_segment] at h1
            obtain ⟨row, _, heq⟩ := List.mem_filterMap.mp h1
            exact (bse_row_ok _ _ _ _ _ heq).2.1
        · split at h2
          · exact absurd h2 (List.not_mem_nil a)
          · simp only [bse_segment] at h2
            obtain ⟨row, _, heq⟩ := List.mem_filterMap.mp h2
            exact (bse_row_ok _ _ _ _ _ heq).2.1

/-- Witness for the amended C3: the alert of the concrete BSE run carries the
system-generated current date. -/
theorem C3_eventDate_provenance_witness :
    (⟨"BSE (Equity)", "ACME Corp", "12/10/2025", "Board meeting", "T0"⟩ : Alert).date
      = fmt_dd_slash_mm_yyyy dateOct12 :=
  (C3_eventDate_provenance dateOct12 "T0").2.2.2.2.2.2 true bseEnvCx _ (by decide)

/-! ### C10: NSE stale extraction variables -/

theorem nse_row_vals_short (row : Frag) (h1 : row.tag = "tr")
    (h2 : (tdTexts row).length < 3) : nse_row_vals row = none := by
  unfold nse_row_vals
  rw [if_pos h1, if_neg (by omega)]

/-- C10: in the NSE adapter a `tr` row with fewer than three cells does not
reassign the extraction variables.  With no previous assignment, the emission
test raises the caught unbound-variable error and the row is skipped; after a
previous row assigned passing values, the stale values are re-tested and
emitted again, yielding a duplicate alert for a row that carried no data. -/
theorem C10_nse_stale_variables (today : Date) (now segment : String)
    (r0 rshort : Frag) (rest : List Frag) (c s d : String)
    (h0 : nse_row_vals r0 = some (c, s, d))
    (htr : rshort.tag = "tr") (hcells : (tdTexts rshort).length < 3)
    (hpass : c ≠ "" ∧ is_today_date today d = true) :
    (nse_rows today now segment (r0 :: rshort :: rest) none).1
      = ⟨"NSE (" ++ segment ++ ")", c, d, s, now⟩
        :: ⟨"NSE (" ++ segment ++ ")", c, d, s, now⟩
        :: (nse_rows today now segment rest (some (c, s, d))).1
    ∧ (nse_rows today now segment (rshort :: rest) none).1
      = (nse_rows today now segment rest none).1 := by
  have hs : nse_row_vals rshort = none := nse_row_vals_short rshort htr hcells
  constructor
  · simp only [nse_rows, h0, hs, if_pos hpass]
  · simp only [nse_rows, hs]

/-- An NSE row with three cells dated today, and a malformed row with a single
cell. -/
def nseFullRow : Frag :=
  ⟨"tr", [DNode.el ⟨"td", none, "12/10/2025", some "12/10/2025"⟩,
          DNode.el ⟨"td", none, "ACME Corp", some "ACME Corp"⟩,
          DNode.el ⟨"td", none, "Results today", some "Results today"⟩]⟩

def nseShortRow : Frag :=
  ⟨"tr", [DNode.el ⟨"td", none, "spacer", some "spacer"⟩]⟩

/-- Witness for C10: the short row re-emits the previous row's alert
(duplicate), and skipped entirely when it is the first row. -/
theorem C10_nse_stale_variables_witness :
    (nse_rows dateOct12 "T0" "Equity" [nseFullRow, nseShortRow] none).1
      = ⟨"NSE (Equity)", "ACME Corp", "12/10/2025", "Results today", "T0"⟩
        :: ⟨"NSE (Equity)", "ACME Corp", "12/10/2025", "Results today", "T0"⟩
        :: (nse_rows dateOct12 "T0" "Equity" []
              (some ("ACME Corp", "Results today", "12/10/2025"))).1
    ∧ (nse_rows dateOct12 "T0" "Equity" [nseShortRow] none).1
      = (nse_rows dateOct12 "T0" "Equity" [] none).1 :=
  C10_nse_stale_variables dateOct12 "T0" "Equity" nseFullRow nseShortRow []
    "ACME Corp" "Results today" "12/10/2025"
    (by decide) (by decide) (by decide) (by decide)
